import Mathlib

/-!
Verification of the Nelson–Siegel relative-value curve fitting engine.

This file gives a shallow embedding of the fitting core — basis functions,
candidate evaluation, the per-model fitter with its monotonicity fallback,
Huber robust reweighting, BIC-based model selection, and residual ranking —
and proves the specified properties about it.

Floating-point numbers are modelled by an ordered field: the structural code
(grid search, guardrail filtering, selection, reweighting) is embedded
generically over a `LinearOrderedField`, so that it is computable and can be
evaluated on rational inputs, while the transcendental primitives
(`exp`-based basis functions, `sqrt`, `log`, the SVD least-squares solver and
the log-spaced grid values) are passed in as parameters, and are modelled
over `ℝ` where a claim is about them directly.
-/

namespace RvCurves

/-! ## Data model (from `src/domain/types.rs`) -/

/-- Concrete fitted model kind (`ModelKind` in `domain/types.rs`). -/
inductive ModelKind
  | Ns
  | Nss
  | Nssc
deriving DecidableEq, Repr

/-- Human-readable label (`ModelKind::display_name`). -/
def ModelKind.displayName : ModelKind → String
  | .Ns => "NS"
  | .Nss => "NSS"
  | .Nssc => "NSS+ (3-hump)"

/-- Number of beta coefficients (`ModelKind::beta_len`). -/
def ModelKind.betaLen : ModelKind → ℕ
  | .Ns => 3
  | .Nss => 4
  | .Nssc => 5

/-- Number of tau parameters (`ModelKind::tau_len`). -/
def ModelKind.tauLen : ModelKind → ℕ
  | .Ns => 1
  | .Nss => 2
  | .Nssc => 3

/-- Total parameter count for information criteria (`ModelKind::param_count`). -/
def ModelKind.paramCount (m : ModelKind) : ℕ :=
  m.betaLen + m.tauLen

/-- An application error: exit code plus message (`error.rs` `AppError`). -/
structure AppErr where
  code : ℕ
  msg : String
deriving DecidableEq, Repr

/-- Short-end monotonicity constraint mode (`ShortEndMonotone` in `domain/types.rs`). -/
inductive ShortEndMonotone
  | None
  | Auto
  | Increasing
  | Decreasing
deriving DecidableEq, Repr

/-- Outlier-robust fitting mode (`RobustKind` in `domain/types.rs`). -/
inductive RobustKind
  | None
  | Huber
deriving DecidableEq, Repr

/-- Which model(s) to fit (`ModelSpec` in `domain/types.rs`). -/
inductive ModelSpec
  | Auto
  | Ns
  | Nss
  | Nssc
  | All
deriving DecidableEq, Repr

/-- Resolved monotonicity direction (`MonotoneDir` in `fit/fitter.rs`). -/
inductive MonotoneDir
  | Increasing
  | Decreasing
deriving DecidableEq, Repr

/-- A bond observation (`BondPoint` in `domain/types.rs`), trimmed to the fields
the fitting core reads: tenor, observed value and weight.  Identity, dates and
metadata are not read by the core and are omitted. -/
structure BondPoint (α : Type) where
  tenor : α
  y_obs : α
  weight : α
deriving DecidableEq

/-- A per-bond fitted result (`BondResidual` in `domain/types.rs`). -/
structure BondResidual (α : Type) where
  point : BondPoint α
  y_fit : α
  residual : α
deriving DecidableEq

/-! ## A stable sort

Rust's slice `sort_by` guarantees a stable sort with respect to the supplied
comparator.  We embed it by a stable insertion sort: `insert_by le a l` places
`a` before the first element `b` of `l` with `le a b`, so elements that
compare equal keep their original relative order. -/

/-- Insert `a` into `l` before the first element `b` with `le a b = true`. -/
def insert_by {α : Type} (le : α → α → Bool) (a : α) : List α → List α
  | [] => [a]
  | b :: l => if le a b then a :: b :: l else b :: insert_by le a l

/-- Stable sort with respect to the boolean comparator `le` (the embedding of
Rust's stable `sort_by`). -/
def sort_by {α : Type} (le : α → α → Bool) : List α → List α
  | [] => []
  | a :: l => insert_by le a (sort_by le l)

/-! ## Numeric primitives

The fitting core combines exactly-representable structural logic with a small
set of numeric primitives: the two transcendental basis loadings, `sqrt`,
`ln`, the SVD least-squares solve (`math/ols.rs`), and the log-spaced decay
values (`tau_grid.rs` `log_space`).  These are abstracted as parameters so the
structural code stays computable; the basis functions themselves are modelled
concretely over `ℝ` further below where claims concern them. -/

/-- The numeric primitives of the fitting core.  `f1`/`f2` are the basis
loadings of `math/basis.rs`, `sqrt`/`log` the corresponding `f64` operations,
`solveLS` the SVD least-squares solve of `math/ols.rs` (rows of the weighted
design matrix, weighted observation vector; `none` models an ill-conditioned
failure), and `logVals` the log-spaced values computed by `log_space` in
`fit/tau_grid.rs` after its input validation. -/
structure FitPrims (α : Type) where
  f1 : α → α → α
  f2 : α → α → α
  sqrt : α → α
  log : α → α
  solveLS : List (List α) → List α → Option (List α)
  logVals : α → α → ℕ → List α

variable {α : Type} [LinearOrderedField α]

/-! ## Model evaluation (from `src/models/model.rs`) -/

/-- Fill a design row for the given model kind (`fill_design_row`).  The row
has the constant term first.  Callers pass `taus` of length `model.tauLen`;
a missing entry defaults to `0` where the source would abort. -/
def fill_design_row (P : FitPrims α) (model : ModelKind) (t : α) (taus : List α) : List α :=
  match model with
  | .Ns => [1, P.f1 t (taus.getD 0 0), P.f2 t (taus.getD 0 0)]
  | .Nss => [1, P.f1 t (taus.getD 0 0), P.f2 t (taus.getD 0 0), P.f2 t (taus.getD 1 0)]
  | .Nssc => [1, P.f1 t (taus.getD 0 0), P.f2 t (taus.getD 0 0), P.f2 t (taus.getD 1 0),
      P.f2 t (taus.getD 2 0)]

/-- Predict `y(t)` for the given model kind (`predict` in `models/model.rs`). -/
def predict (P : FitPrims α) (model : ModelKind) (t : α) (betas taus : List α) : α :=
  match model with
  | .Ns => betas.getD 0 0 + betas.getD 1 0 * P.f1 t (taus.getD 0 0)
      + betas.getD 2 0 * P.f2 t (taus.getD 0 0)
  | .Nss => betas.getD 0 0 + betas.getD 1 0 * P.f1 t (taus.getD 0 0)
      + betas.getD 2 0 * P.f2 t (taus.getD 0 0) + betas.getD 3 0 * P.f2 t (taus.getD 1 0)
  | .Nssc => betas.getD 0 0 + betas.getD 1 0 * P.f1 t (taus.getD 0 0)
      + betas.getD 2 0 * P.f2 t (taus.getD 0 0) + betas.getD 3 0 * P.f2 t (taus.getD 1 0)
      + betas.getD 4 0 * P.f2 t (taus.getD 2 0)

/-! ## Shape guardrail (from `src/fit/fitter.rs`) -/

/-- Scan successive sampled curve values for a signed difference that exceeds
the tolerance in the wrong direction (the loop body of
`violates_short_end_monotone`).  The non-finiteness checks of the source are
vacuous in a field and are dropped. -/
def monotone_scan (dir : MonotoneDir) (eps : α) : α → List α → Bool
  | _, [] => false
  | prev, yi :: rest =>
    let dy := yi - prev
    match dir with
    | .Increasing => if dy < -eps then true else monotone_scan dir eps yi rest
    | .Decreasing => if dy > eps then true else monotone_scan dir eps yi rest

/-- Check whether a candidate violates short-end monotonicity
(`violates_short_end_monotone`): the curve is sampled at 25 uniform points of
`[0, window]` and successive differences must not exceed `10⁻⁹` against the
direction. -/
def violates_short_end_monotone (P : FitPrims α) (model : ModelKind) (betas taus : List α)
    (dir : MonotoneDir) (window : α) : Bool :=
  let window := max window 0
  if window ≤ 0 then false
  else
    let eps : α := 1 / 10 ^ 9
    let samples := (List.range 24).map
      (fun i => predict P model (((i + 1 : ℕ) : α) / 24 * window) betas taus)
    monotone_scan dir eps (predict P model 0 betas taus) samples

/-- Weighted sum of squared residuals over the observations, in the source's
summation order (the SSE loop at the end of `evaluate_candidate`). -/
def weighted_sse (P : FitPrims α) (model : ModelKind) (tenors y w betas taus : List α) : α :=
  (tenors.zip (y.zip w)).foldl
    (fun acc p => acc + p.2.2 * ((p.2.1 - predict P model p.1 betas taus)
      * (p.2.1 - predict P model p.1 betas taus))) 0

/-! ## Candidate evaluation (from `src/fit/fitter.rs`) -/

/-- Whether the optional monotonicity guardrail rejects a candidate (the
`match` on the optional direction inside `evaluate_candidate`). -/
def monotone_rejected (P : FitPrims α) (model : ModelKind) (betas taus : List α)
    (monotone_dir : Option MonotoneDir) (window : α) : Bool :=
  match monotone_dir with
  | some dir => violates_short_end_monotone P model betas taus dir window
  | none => false

/-- Evaluate one tau tuple (`evaluate_candidate`): validate inputs, build the
weighted design system, solve it, reconstruct the full beta vector when the
front end is fixed, apply the monotonicity guardrail, and compute the weighted
SSE over the real observations.  The finiteness checks on `tenors`, `y`, `w`
and on the SSE are vacuous in a field and are dropped, keeping the sign
checks. -/
def evaluate_candidate (P : FitPrims α) (model : ModelKind) (taus tenors y w : List α)
    (front_end_value : Option α) (monotone_dir : Option MonotoneDir)
    (short_end_window : α) : Option (List α × α) :=
  if tenors.any (fun t => decide (t ≤ 0)) then none
  else if w.any (fun v => decide (v ≤ 0)) then none
  else
    let xwRow : α → α → List α := fun t sw =>
      let row := fill_design_row P model t taus
      match front_end_value with
      | some _ =>
        let g1 := row.getD 1 0
        ((1 - g1) * sw) :: (row.drop 2).map (· * sw)
      | none => row.map (· * sw)
    let ywEntry : α → α → α → α := fun yi t sw =>
      match front_end_value with
      | some y0 => (yi - y0 * (fill_design_row P model t taus).getD 1 0) * sw
      | none => yi * sw
    let xw := (tenors.zip w).map (fun p => xwRow p.1 (P.sqrt p.2))
    let yw := (tenors.zip (y.zip w)).map (fun p => ywEntry p.2.1 p.1 (P.sqrt p.2.2))
    match P.solveLS xw yw with
    | none => none
    | some beta =>
      let betas : List α :=
        match front_end_value with
        | some y0 => beta.getD 0 0 :: (y0 - beta.getD 0 0) :: beta.drop 1
        | none => beta
      if monotone_rejected P model betas taus monotone_dir short_end_window then none
      else some (betas, weighted_sse P model tenors y w betas taus)

/-- One evaluated grid candidate (`Candidate` in `fit/fitter.rs`). -/
structure Candidate (α : Type) where
  idx : ℕ
  taus : List α
  betas : List α
  sse : α
deriving DecidableEq

/-- The error returned when the candidate set is empty (the `FIT_FAILED`
signal, naming the model order). -/
def fitFailedErr (model : ModelKind) : AppErr :=
  ⟨4, "No valid fit candidates for model " ++ model.displayName ++ "."⟩

/-- Evaluate the whole tau grid and select the best candidate (`fit_once`):
minimum SSE, ties broken by the smaller grid index. -/
def fit_once (P : FitPrims α) (model : ModelKind) (tau_grid : List (List α))
    (tenors y w : List α) (front_end_value : Option α)
    (monotone_dir : Option MonotoneDir) (short_end_window : α) :
    Except AppErr (Candidate α) :=
  let candidates : List (Candidate α) := tau_grid.enum.filterMap
    (fun p => (evaluate_candidate P model p.2 tenors y w front_end_value monotone_dir
        short_end_window).map
      (fun r => ⟨p.1, p.2, r.1, r.2⟩))
  match candidates with
  | [] => .error (fitFailedErr model)
  | c :: rest => .ok (rest.foldl
      (fun b c => if c.sse < b.sse ∨ (c.sse = b.sse ∧ c.idx < b.idx) then c else b) c)

/-! ## Robust reweighting (from `src/fit/fitter.rs`) -/

/-- Per-observation residuals against a fitted curve (`compute_residuals`). -/
def compute_residuals (P : FitPrims α) (model : ModelKind) (tenors y betas taus : List α) :
    List α :=
  (tenors.zip y).map (fun p => p.2 - predict P model p.1 betas taus)

/-- Median of a list of values (`median_mut`): sort, then take the middle
element, or the mean of the two middle elements for even length. -/
def median_mut (values : List α) : Option α :=
  if values.isEmpty then none
  else
    let v := sort_by (fun a b => decide (a ≤ b)) values
    let mid := v.length / 2
    if v.length % 2 = 1 then some (v.getD mid 0)
    else some ((v.getD (mid - 1) 0 + v.getD mid 0) / 2)

/-- Huber reweighting (`huber_reweight`): MAD-based scale, cutoff `k·σ`,
factor `1` inside the cutoff and `cutoff/|r|` outside, floored at `10⁻³` of
the base weight.  The finiteness filters of the source are vacuous in a field
and are dropped. -/
def huber_reweight (w_base residuals : List α) (k : α) : List α :=
  let abs' := residuals.map (fun r => |r|)
  let mad := (median_mut abs').getD 0
  let scale := max (mad / (6745 / 10000)) (1 / 10 ^ 12)
  let cutoff := max k (1 / 10 ^ 6) * scale
  let min_factor : α := 1 / 10 ^ 3
  (w_base.zip residuals).map (fun p =>
    let ar := |p.2|
    let factor := if ar ≤ cutoff then 1 else cutoff / ar
    max (p.1 * factor) (p.1 * min_factor))

/-! ## Direction inference (from `src/fit/fitter.rs`) -/

/-- The weighted least-squares slope-sign computation inside
`infer_short_end_dir` (the part after the front bucket has been chosen).
The finiteness filters of the source are vacuous in a field and are
dropped. -/
def wls_slope_dir (tenors y w : List α) (idx : List ℕ) : Option MonotoneDir :=
  let wAt : ℕ → α := fun i => w.getD i 1
  let sw := idx.foldl (fun s i => s + wAt i) 0
  let st := idx.foldl (fun s i => s + wAt i * tenors.getD i 0) 0
  let sy := idx.foldl (fun s i => s + wAt i * y.getD i 0) 0
  if sw ≤ 0 then none
  else
    let tbar := st / sw
    let ybar := sy / sw
    let cov : α := idx.foldl
      (fun s i => s + wAt i * (tenors.getD i 0 - tbar) * (y.getD i 0 - ybar)) 0
    let var : α := idx.foldl
      (fun s i => s + wAt i * (tenors.getD i 0 - tbar) * (tenors.getD i 0 - tbar)) 0
    if var ≤ (1 / 10 ^ 18 : α) then none
    else if 0 ≤ cov / var then some MonotoneDir.Increasing
    else some MonotoneDir.Decreasing

/-- Infer the short-end slope direction (`infer_short_end_dir`), continuing
`wls_slope_dir` above: take the front bucket, fall back to the five shortest
tenors when it is sparse, then return the slope sign. -/
def infer_short_end_dir (tenors y w : List α) (window : α) : Option MonotoneDir :=
  let idx0 : List ℕ := tenors.enum.filterMap
    (fun p => if p.2 ≤ window then some p.1 else none)
  let idx : List ℕ :=
    if idx0.length < 3 then
      let pairs := sort_by (fun a b => decide (a.1 ≤ b.1))
        (tenors.enum.map (fun p => (p.2, p.1)))
      (pairs.take (min 5 pairs.length)).map (fun p => p.2)
    else idx0
  if idx.length < 3 then none
  else wls_slope_dir tenors y w idx

/-- Resolve the configured monotonicity mode to a concrete direction
(`resolve_monotone_dir`). -/
def resolve_monotone_dir (mode : ShortEndMonotone) (tenors y w : List α) (window : α) :
    Option MonotoneDir :=
  match mode with
  | .None => none
  | .Increasing => some MonotoneDir.Increasing
  | .Decreasing => some MonotoneDir.Decreasing
  | .Auto => infer_short_end_dir tenors y w window

/-! ## Per-model fitter (from `src/fit/fitter.rs`) -/

/-- Fitting options (`FitOptions` in `fit/fitter.rs`). -/
structure FitOptions (α : Type) where
  front_end_value : Option α
  short_end_monotone : ShortEndMonotone
  short_end_window : α
  robust : RobustKind
  robust_iters : ℕ
  robust_k : α
deriving DecidableEq

/-- Best fit for a single model kind (`ModelFit` in `fit/fitter.rs`). -/
structure ModelFit (α : Type) where
  model : ModelKind
  betas : List α
  taus : List α
  sse : α
  rmse : α
deriving DecidableEq

/-- The outer loop of `fit_model`: run `fit_once` up to `fuel` times,
falling back once (and permanently) to an unconstrained fit when the
monotonicity guardrail empties the candidate set, reweighting between passes
when robust mode is on. -/
def fit_loop (P : FitPrims α) (model : ModelKind) (tau_grid : List (List α))
    (tenors y w_base : List α) (front_end_value : Option α) (short_end_window : α)
    (robust_off : Bool) (robust_k : α) :
    ℕ → List α → Option MonotoneDir → Option (Candidate α) → Except AppErr (Candidate α)
  | 0, _, _, best =>
    match best with
    | some b => .ok b
    | none => .error (fitFailedErr model)
  | fuel + 1, w_work, dirWork, _ =>
    match fit_once P model tau_grid tenors y w_work front_end_value dirWork
        short_end_window with
    | .ok c =>
      if robust_off then .ok c
      else
        fit_loop P model tau_grid tenors y w_base front_end_value short_end_window
          robust_off robust_k fuel
          (huber_reweight w_base (compute_residuals P model tenors y c.betas c.taus) robust_k)
          dirWork (some c)
    | .error e =>
      match dirWork with
      | some _ =>
        match fit_once P model tau_grid tenors y w_work front_end_value none
            short_end_window with
        | .ok c =>
          if robust_off then .ok c
          else
            fit_loop P model tau_grid tenors y w_base front_end_value short_end_window
              robust_off robust_k fuel
              (huber_reweight w_base (compute_residuals P model tenors y c.betas c.taus)
                robust_k)
              none (some c)
        | .error e2 => .error e2
      | none => .error e

/-- Fit a single model kind over a tau grid (`fit_model`). -/
def fit_model (P : FitPrims α) (model : ModelKind) (points : List (BondPoint α))
    (tau_grid : List (List α)) (opts : FitOptions α) : Except AppErr (ModelFit α) :=
  if points.isEmpty then .error ⟨3, "No data points to fit."⟩
  else if tau_grid.isEmpty then .error ⟨4, "Tau grid is empty."⟩
  else
    let tenors := points.map BondPoint.tenor
    let y := points.map BondPoint.y_obs
    let w_base := points.map BondPoint.weight
    let n := tenors.length
    let monotone_dir := resolve_monotone_dir opts.short_end_monotone tenors y w_base
      opts.short_end_window
    let n_refits : ℕ :=
      match opts.robust with
      | .None => 1
      | .Huber => max (opts.robust_iters + 1) 1
    match fit_loop P model tau_grid tenors y w_base opts.front_end_value
        opts.short_end_window (decide (opts.robust = RobustKind.None)) opts.robust_k
        n_refits w_base monotone_dir none with
    | .ok best => .ok ⟨model, best.betas, best.taus, best.sse, P.sqrt (best.sse / n)⟩
    | .error e => .error e

/-! ## Decay grids (from `src/fit/tau_grid.rs`) -/

/-- Log-spaced points between `min` and `max` (`log_space`): the input
validation is from the source, the transcendental values come from the
`logVals` primitive. -/
def log_space (P : FitPrims α) (tmin tmax : α) (steps : ℕ) : Except AppErr (List α) :=
  if ¬ (0 < tmin ∧ 0 < tmax ∧ tmin < tmax) then
    .error ⟨2, "Invalid tau range (must be finite, positive, and max>min)."⟩
  else if steps < 2 then .error ⟨2, "Tau steps must be >= 2."⟩
  else .ok (P.logVals tmin tmax steps)

/-- NS tau grid (`tau_grid_ns`): singleton tuples. -/
def tau_grid_ns (P : FitPrims α) (tmin tmax : α) (steps : ℕ) :
    Except AppErr (List (List α)) :=
  (log_space P tmin tmax steps).map (fun values => values.map (fun t => [t]))

/-- Ordered index pairs `(i, j)` with `i < j < n`, in the source's loop
order. -/
def index_pairs (n : ℕ) : List (ℕ × ℕ) :=
  (List.range n).flatMap (fun i => ((List.range n).drop (i + 1)).map (fun j => (i, j)))

/-- Ordered index triples `(i, j, k)` with `i < j < k < n`, in the source's
loop order. -/
def index_triples (n : ℕ) : List (ℕ × ℕ × ℕ) :=
  (List.range n).flatMap (fun i =>
    ((List.range n).drop (i + 1)).flatMap (fun j =>
      ((List.range n).drop (j + 1)).map (fun k => (i, j, k))))

/-- NSS tau grid (`tau_grid_nss`): ordered pairs obeying the minimum-ratio
separation. -/
def tau_grid_nss (P : FitPrims α) (tmin tmax : α) (steps : ℕ) (min_ratio : α) :
    Except AppErr (List (List α)) :=
  (log_space P tmin tmax steps).map (fun values =>
    let r := max min_ratio 1
    (index_pairs values.length).filterMap (fun p =>
      if values.getD p.1 0 * r ≤ values.getD p.2 0 then
        some [values.getD p.1 0, values.getD p.2 0]
      else none))

/-- NSSC tau grid (`tau_grid_nssc`): ordered triples obeying the
minimum-ratio separation. -/
def tau_grid_nssc (P : FitPrims α) (tmin tmax : α) (steps : ℕ) (min_ratio : α) :
    Except AppErr (List (List α)) :=
  (log_space P tmin tmax steps).map (fun values =>
    let r := max min_ratio 1
    (index_triples values.length).filterMap (fun p =>
      if values.getD p.1 0 * r ≤ values.getD p.2.1 0 ∧
          values.getD p.2.1 0 * r ≤ values.getD p.2.2 0 then
        some [values.getD p.1 0, values.getD p.2.1 0, values.getD p.2.2 0]
      else none))

/-! ## Prior rows (from `src/fit/selection.rs`)

`fit/selection.rs` builds a baseline-shrinkage prior plus front-end anchor
points and hands them to the fitter.  The `AnchorPoint` and `BaselinePrior`
types live in the newer fitter, which is absent from the source tree; their
fields are taken from their construction sites in `fit/selection.rs`. -/

/-- A front-end anchor row: tenor, target value and least-squares weight
(`AnchorPoint`, as constructed by `build_anchor_points`). -/
structure AnchorPoint (α : Type) where
  tenor : α
  y : α
  weight : α
deriving DecidableEq

/-- The baseline prior bundle: per-observation shrinkage targets with their
weights, plus anchor points (`BaselinePrior`, as constructed by
`build_baseline_prior`). -/
structure BaselinePrior (α : Type) where
  y : List α
  weights : List α
  anchors : List (AnchorPoint α)
deriving DecidableEq

/-- Build anchor points from anchor baseline values and config
(`build_anchor_points`): sigma is `floor · (1 + decay · tenor)` and the
weight is `1/σ²`. -/
def build_anchor_points (anchor_baselines : Option (List α)) (anchor_tenors : List α)
    (anchor_sigma_floor_bp anchor_sigma_decay : α) :
    Except AppErr (List (AnchorPoint α)) :=
  match anchor_baselines with
  | none => .ok []
  | some ab =>
    if ab.length ≠ anchor_tenors.length then
      .error ⟨4, "Anchor baseline length (" ++ toString ab.length
        ++ ") != anchor tenors length (" ++ toString anchor_tenors.length ++ ")"⟩
    else if ¬ (0 < anchor_sigma_floor_bp) then
      .error ⟨2, "Invalid anchor_sigma_floor_bp setting."⟩
    else if ¬ (0 ≤ anchor_sigma_decay) then
      .error ⟨2, "Invalid anchor_sigma_decay setting."⟩
    else if ab.any (fun yv => decide (yv ≤ 0)) then
      .error ⟨4, "Non-positive anchor baseline value."⟩
    else
      .ok ((anchor_tenors.zip ab).map (fun p =>
        let sigma := anchor_sigma_floor_bp * (1 + anchor_sigma_decay * p.1)
        ⟨p.1, p.2, 1 / (sigma * sigma)⟩))

/-- Build the baseline prior including front-end anchors
(`build_baseline_prior`): each baseline level becomes a synthetic observation
with sigma `max(σ_rel · y, σ_floor)` and weight `1/σ²`.  The finiteness
checks of the source are vacuous in a field and are dropped, keeping the sign
checks. -/
def build_baseline_prior (points : List (BondPoint α)) (baseline : Option (List α))
    (anchor_baselines : Option (List α)) (anchor_tenors : List α)
    (prior_sigma_rel prior_sigma_floor_bp anchor_sigma_floor_bp anchor_sigma_decay : α) :
    Except AppErr (Option (BaselinePrior α)) :=
  match baseline with
  | none => .ok none
  | some base =>
    if base.length ≠ points.length then
      .error ⟨4, "Baseline prior length mismatch."⟩
    else if ¬ (0 < prior_sigma_rel) then
      .error ⟨2, "Invalid prior_sigma_rel setting."⟩
    else if ¬ (0 < prior_sigma_floor_bp) then
      .error ⟨2, "Invalid prior_sigma_floor_bp setting."⟩
    else if base.any (fun yv => decide (yv ≤ 0)) then
      .error ⟨4, "Non-positive baseline value in prior."⟩
    else
      let weights := base.map (fun yv =>
        let sigma := max (prior_sigma_rel * yv) prior_sigma_floor_bp
        1 / (sigma * sigma))
      (build_anchor_points anchor_baselines anchor_tenors anchor_sigma_floor_bp
        anchor_sigma_decay).map
        (fun anchors => some ⟨base, weights, anchors⟩)

/-! ## Selection (from `src/fit/selection.rs`) -/

/-- Fit quality diagnostics (`FitQuality` in `domain/types.rs`). -/
structure FitQuality (α : Type) where
  sse : α
  rmse : α
  bic : α
  n : ℕ
deriving DecidableEq

/-- Fitted model parameters and metadata (`CurveModel` in `domain/types.rs`). -/
structure CurveModel (α : Type) where
  name : ModelKind
  display_name : String
  betas : List α
  taus : List α
deriving DecidableEq

/-- Fit output for a single model (`FitResult` in `domain/types.rs`). -/
structure FitResult (α : Type) where
  model : CurveModel α
  quality : FitQuality α
deriving DecidableEq

/-- The BIC formula of `fit/selection.rs` (`bic`), generic in the `log`
primitive: `n · ln(max(SSE/n, 10⁻¹²)) + k · ln(n)`. -/
def bicWith (logF : α → α) (n : ℕ) (sse : α) (k : ℕ) : α :=
  (n : α) * logF (max (sse / (n : α)) (1 / 10 ^ 12)) + (k : α) * logF (n : α)

/-- Package a `ModelFit` into a `FitResult` (`to_fit_result`). -/
def to_fit_result (P : FitPrims α) (fit : ModelFit α) (n k : ℕ) : FitResult α :=
  { model := ⟨fit.model, fit.model.displayName, fit.betas, fit.taus⟩
    quality := ⟨fit.sse, fit.rmse, bicWith P.log n fit.sse k, n⟩ }

/-- The simplicity-preference loop of `select_by_bic`: iterate the model
kinds in order of increasing complexity and return the first fit whose BIC is
within `2` of `best_bic`. -/
def sel_loop (fits : List (FitResult α)) (best_bic : α) :
    List ModelKind → Option (FitResult α)
  | [] => none
  | kind :: ks =>
    match fits.find? (fun f => decide (f.model.name = kind)) with
    | some f => if f.quality.bic ≤ best_bic + 2 then some f else sel_loop fits best_bic ks
    | none => sel_loop fits best_bic ks

/-- Select the best fit by BIC with simplicity preference (`select_by_bic`):
find the minimum-BIC fit, then return the first fit in increasing-complexity
order within `2` BIC points of it, falling back to the minimum-BIC fit.
The source indexes `fits[0]`, so the empty list is modelled as `none`. -/
def select_by_bic (fits : List (FitResult α)) : Option (FitResult α) :=
  match fits with
  | [] => none
  | f0 :: rest =>
    let best := rest.foldl (fun b f => if f.quality.bic < b.quality.bic then f else b) f0
    let best_bic := best.quality.bic
    some ((sel_loop fits best_bic [ModelKind.Ns, ModelKind.Nss, ModelKind.Nssc]).getD best)

/-- The fit configuration (`FitConfig` in `domain/types.rs`), trimmed to the
fields `fit_and_select` reads.  The newer fields (`tau_min_ratio`, the prior
and anchor settings, `enforce_non_negative`) are absent from the
`domain/types.rs` in the source tree and are modelled from their use in
`fit/selection.rs`. -/
structure FitConfig (α : Type) where
  model_spec : ModelSpec
  tau_min : α
  tau_max : α
  tau_steps_ns : ℕ
  tau_steps_nss : ℕ
  tau_steps_nssc : ℕ
  tau_min_ratio : α
  prior_sigma_rel : α
  prior_sigma_floor_bp : α
  anchor_tenors : List α
  anchor_sigma_floor_bp : α
  anchor_sigma_decay : α
  enforce_non_negative : Bool
  short_end_monotone : ShortEndMonotone
  short_end_window : α
  robust : RobustKind
  robust_iters : ℕ
  robust_k : α

/-- The fitting options handed to the newer fitter by `fit_and_select`
(the `FitOptions` literal built in `fit/selection.rs`, which has an
`enforce_non_negative` flag and no front-end value). -/
structure FitOptions2 (α : Type) where
  short_end_monotone : ShortEndMonotone
  short_end_window : α
  robust : RobustKind
  robust_iters : ℕ
  robust_k : α
  enforce_non_negative : Bool
deriving DecidableEq

/-- Output of fitting plus selection (`FitSelection` in `fit/selection.rs`). -/
structure FitSelection (α : Type) where
  best : FitResult α
  fits : List (FitResult α)
  skipped : List (ModelKind × String)

/-- The model kinds attempted for a given `ModelSpec` (the `match` at the top
of `fit_and_select`). -/
def model_kinds_of : ModelSpec → List ModelKind
  | .Ns => [ModelKind.Ns]
  | .Nss => [ModelKind.Nss]
  | .Nssc => [ModelKind.Nssc]
  | .All => [ModelKind.Ns, ModelKind.Nss, ModelKind.Nssc]
  | .Auto => [ModelKind.Ns, ModelKind.Nss, ModelKind.Nssc]

/-- The skip reason recorded for an underdetermined model order (the
`format!` string in `fit_and_select`). -/
def underdetMsg (n k : ℕ) : String :=
  "Underdetermined: n=" ++ toString n ++ " < k+5=" ++ toString (k + 5)

/-- The per-kind loop of `fit_and_select`: skip underdetermined orders,
build the tau grid, and fit.  The call to the newer `fit_model` (which takes
the prior bundle and is absent from the source tree) is abstracted as the
`fitF` parameter; tau-grid and fit errors propagate as in the source. -/
def attempt_kinds (P : FitPrims α)
    (fitF : ModelKind → List (BondPoint α) → List (List α) → FitOptions2 α →
      Option (BaselinePrior α) → Except AppErr (ModelFit α))
    (points : List (BondPoint α)) (config : FitConfig α)
    (prior : Option (BaselinePrior α)) :
    List ModelKind → Except AppErr (List (FitResult α) × List (ModelKind × String))
  | [] => .ok ([], [])
  | kind :: ks =>
    if points.length < kind.paramCount + 5 then
      (attempt_kinds P fitF points config prior ks).map
        (fun (r : List (FitResult α) × List (ModelKind × String)) =>
          (r.1, (kind, underdetMsg points.length kind.paramCount) :: r.2))
    else
      (match kind with
        | ModelKind.Ns => tau_grid_ns P config.tau_min config.tau_max config.tau_steps_ns
        | ModelKind.Nss => tau_grid_nss P config.tau_min config.tau_max
            config.tau_steps_nss config.tau_min_ratio
        | ModelKind.Nssc => tau_grid_nssc P config.tau_min config.tau_max
            config.tau_steps_nssc config.tau_min_ratio).bind (fun tau_grid =>
        (fitF kind points tau_grid
            ⟨config.short_end_monotone, config.short_end_window, config.robust,
              config.robust_iters, config.robust_k, config.enforce_non_negative⟩
            prior).bind (fun fit =>
          (attempt_kinds P fitF points config prior ks).map
            (fun (r : List (FitResult α) × List (ModelKind × String)) =>
              (to_fit_result P fit points.length kind.paramCount :: r.1, r.2))))

/-- Whether the caller requested a single specific model (the `matches!` in
`fit_and_select`). -/
def single_model_spec : ModelSpec → Bool
  | .Ns => true
  | .Nss => true
  | .Nssc => true
  | .All => false
  | .Auto => false

/-- Fit and select the best model (`fit_and_select`): validate the ratio
setting, build the baseline prior, attempt each model kind (recording
underdetermined skips), fail when nothing was fitted, and otherwise select by
BIC unless a single model was requested. -/
def fit_and_select (P : FitPrims α)
    (fitF : ModelKind → List (BondPoint α) → List (List α) → FitOptions2 α →
      Option (BaselinePrior α) → Except AppErr (ModelFit α))
    (points : List (BondPoint α)) (baseline anchor_baselines : Option (List α))
    (config : FitConfig α) : Except AppErr (FitSelection α) :=
  if ¬ (0 < config.tau_min_ratio) then .error ⟨2, "Invalid tau_min_ratio setting."⟩
  else
    (build_baseline_prior points baseline anchor_baselines config.anchor_tenors
      config.prior_sigma_rel config.prior_sigma_floor_bp config.anchor_sigma_floor_bp
      config.anchor_sigma_decay).bind (fun prior =>
    (attempt_kinds P fitF points config prior (model_kinds_of config.model_spec)).bind
      (fun r =>
        match r.1 with
        | [] => .error ⟨3, "Insufficient data to fit any model after guardrails."⟩
        | f0 :: rest =>
          let best :=
            if single_model_spec config.model_spec then f0
            else (select_by_bic (f0 :: rest)).getD f0
          .ok ⟨best, f0 :: rest, r.2⟩))

/-! ## Candidate evaluation with guardrails and priors

`fit/selection.rs` calls a newer `fit_model`/`evaluate_candidate` that takes
the `enforce_non_negative` flag and the `BaselinePrior` bundle; that fitter is
absent from the source tree (the `fit/fitter.rs` present predates it).  The
definitions below model it from the spec. -/

/-- The largest observation tenor, the upper end `t_max` of the
non-negativity sampling grid. -/
def tenor_max (tenors : List α) : α :=
  tenors.foldl max 0

/-- Modelled from the spec: the 25 uniformly spaced sample points of
`[0, t_max]` used by the non-negativity guardrail (§4.4 "Non-negativity:
`y(t) ≥ 0` for `t` sampled on a uniform grid over `[0, t_max]`
(25 samples)"). -/
def nonneg_samples (tmax : α) : List α :=
  (List.range 25).map (fun i => (i : α) / 24 * tmax)

/-- Modelled from the spec: the non-negativity guardrail check (§4.4),
rejecting a candidate whose predicted curve is negative at any of the 25
sample points. -/
def violates_non_negative (P : FitPrims α) (model : ModelKind) (betas taus : List α)
    (tmax : α) : Bool :=
  (nonneg_samples tmax).any (fun t => decide (predict P model t betas taus < 0))

/-- The shrinkage and anchor rows appended to the least-squares system
(spec §4.5 step 1b and §4.7), each scaled by the square root of its own
weight: returns the extra design rows paired with the extra target entries. -/
def prior_rows (P : FitPrims α) (model : ModelKind) (taus tenors : List α)
    (prior : Option (BaselinePrior α)) : List (List α) × List α :=
  match prior with
  | none => ([], [])
  | some pr =>
    let shrink := (tenors.zip (pr.y.zip pr.weights)).map (fun p =>
      ((fill_design_row P model p.1 taus).map (· * P.sqrt p.2.2), p.2.1 * P.sqrt p.2.2))
    let anch := pr.anchors.map (fun a =>
      ((fill_design_row P model a.tenor taus).map (· * P.sqrt a.weight),
        a.y * P.sqrt a.weight))
    ((shrink ++ anch).map Prod.fst, (shrink ++ anch).map Prod.snd)

/-- Modelled from the spec: the newer `evaluate_candidate` called (through
`fit_model`) by `fit/selection.rs` and absent from the source tree.  Per spec
§4.5: build the weighted design system over the real observations, append the
prior rows (§4.7), solve, apply the non-negativity (§4.4) and monotonicity
guardrails, and compute the weighted SSE on the real observations only
(step 1e).  Validation of signs follows the older `evaluate_candidate`. -/
def evaluate_candidate_v2 (P : FitPrims α) (model : ModelKind) (taus tenors y w : List α)
    (prior : Option (BaselinePrior α)) (enforce_non_negative : Bool)
    (monotone_dir : Option MonotoneDir) (short_end_window : α) : Option (List α × α) :=
  if tenors.any (fun t => decide (t ≤ 0)) then none
  else if w.any (fun v => decide (v ≤ 0)) then none
  else
    match P.solveLS
        ((tenors.zip w).map (fun p =>
          (fill_design_row P model p.1 taus).map (· * P.sqrt p.2))
          ++ (prior_rows P model taus tenors prior).1)
        ((y.zip w).map (fun p => p.1 * P.sqrt p.2)
          ++ (prior_rows P model taus tenors prior).2) with
    | none => none
    | some betas =>
      if enforce_non_negative &&
          violates_non_negative P model betas taus (tenor_max tenors) then none
      else if monotone_rejected P model betas taus monotone_dir short_end_window then none
      else some (betas, weighted_sse P model tenors y w betas taus)

/-! ## Residual ranking (from `src/report/mod.rs`) -/

/-- Cheap/rich rankings (`Rankings` in `report/mod.rs`). -/
structure Rankings (α : Type) where
  cheap : List (BondResidual α)
  rich : List (BondResidual α)
deriving DecidableEq

/-- Rank the top cheap and rich bonds by residual (`rank_cheap_rich`): a
stable sort by residual descending gives `cheap`, a stable sort ascending
gives `rich`, each truncated to `top_n`. -/
def rank_cheap_rich (residuals : List (BondResidual α)) (top_n : ℕ) : Rankings α :=
  let sorted := sort_by (fun a b => decide (b.residual ≤ a.residual)) residuals
  let cheap := sorted.take top_n
  let sorted_rich := sort_by (fun a b => decide (a.residual ≤ b.residual)) residuals
  ⟨cheap, sorted_rich.take top_n⟩

/-! ## The basis functions over the reals (from `src/math/basis.rs`)

The two NS loadings are modelled directly over `ℝ`, with `expm1`/`exp`
rendered exactly: the source's `-(-x).exp_m1()` is `1 - exp(-x)`. -/

/-- The floor guarding against `t = 0` (`T_EPS`) and the series threshold
(`SMALL_X`) are `10⁻¹²` and `10⁻⁶` respectively.  `f1(t, τ) =
(1 - exp(-t/τ))/(t/τ)` with the series fallback for small `x` (`f1` in
`math/basis.rs`). -/
noncomputable def f1 (t tau : ℝ) : ℝ :=
  let t' := max t (1 / 10 ^ 12)
  let x := t' / tau
  if |x| < 1 / 10 ^ 6 then 1 - x / 2 + x ^ 2 / 6
  else (1 - Real.exp (-x)) / x

/-- Second loading `f2(t, τ) = f1(t, τ) - exp(-t/τ)` with its series fallback
for small `x` (`f2` in `math/basis.rs`). -/
noncomputable def f2 (t tau : ℝ) : ℝ :=
  let t' := max t (1 / 10 ^ 12)
  let x := t' / tau
  if |x| < 1 / 10 ^ 6 then x / 2 - x ^ 2 / 3
  else f1 t tau - Real.exp (-x)

/-- The BIC formula over the reals (`bic` in `fit/selection.rs`):
`n · ln(max(SSE/n, 10⁻¹²)) + k · ln(n)`. -/
noncomputable def bic (n : ℕ) (sse : ℝ) (k : ℕ) : ℝ :=
  (n : ℝ) * Real.log (max (sse / (n : ℝ)) (1 / 10 ^ 12)) + (k : ℝ) * Real.log (n : ℝ)

/-! ## Robust reweighting properties (claims C6 and C10) -/

/-- Shape of one entry of `huber_reweight`: there is a positive cutoff such
that the entry is the base weight times the Huber factor, floored at `10⁻³`
of the base weight. -/
theorem huber_reweight_entry (w_base residuals : List α) (k : α) (i : ℕ)
    (hw : i < w_base.length) (hr : i < residuals.length) :
    ∃ cutoff : α, 0 < cutoff ∧
      (huber_reweight w_base residuals k).getD i 0 =
        max (w_base.getD i 0 *
            (if |residuals.getD i 0| ≤ cutoff then 1 else cutoff / |residuals.getD i 0|))
          (w_base.getD i 0 * (1 / 10 ^ 3)) := by
  have hzip : i < (w_base.zip residuals).length := by
    rw [List.length_zip]; omega
  refine ⟨max k (1 / 10 ^ 6) *
    max (((median_mut (residuals.map (fun r => |r|))).getD 0) / (6745 / 10000))
      (1 / 10 ^ 12), ?_, ?_⟩
  · have h1 : (0 : α) < max k (1 / 10 ^ 6) :=
      lt_of_lt_of_le (by norm_num) (le_max_right _ _)
    have h2 : (0 : α) <
        max (((median_mut (residuals.map (fun r => |r|))).getD 0) / (6745 / 10000))
          (1 / 10 ^ 12) :=
      lt_of_lt_of_le (by norm_num) (le_max_right _ _)
    exact mul_pos h1 h2
  · rw [huber_reweight]
    rw [List.getD_eq_getElem _ _ (by simpa using hzip)]
    rw [List.getElem_map, List.getElem_zip]
    rw [List.getD_eq_getElem _ _ hw, List.getD_eq_getElem _ _ hr]

/-- C6 (robust weight floor): after any robust reweighting pass, every
working weight is at least `10⁻³` times the corresponding base weight. -/
theorem huber_reweight_floor (w_base residuals : List α) (k : α) (i : ℕ)
    (hw : i < w_base.length) (hr : i < residuals.length) :
    (1 / 10 ^ 3 : α) * w_base.getD i 0 ≤ (huber_reweight w_base residuals k).getD i 0 := by
  obtain ⟨cutoff, -, hEq⟩ := huber_reweight_entry w_base residuals k i hw hr
  rw [hEq, mul_comm]
  exact le_max_right _ _

/-- C6 witness. -/
theorem huber_reweight_floor_witness :
    (1 / 10 ^ 3 : ℚ) * ([2, 3] : List ℚ).getD 0 0 ≤
      (huber_reweight [2, 3] [5, -7] (3 / 2)).getD 0 0 :=
  huber_reweight_floor [2, 3] [5, -7] (3 / 2) 0 (by decide) (by decide)

/-- C10 (robust reweighting only downweights): for an observation with
positive base weight, the Huber factor is at most one, so the working weight
lies between `10⁻³` times the base weight and the base weight itself. -/
theorem huber_reweight_bounds (w_base residuals : List α) (k : α) (i : ℕ)
    (hw : i < w_base.length) (hr : i < residuals.length)
    (hpos : 0 < w_base.getD i 0) :
    (1 / 10 ^ 3 : α) * w_base.getD i 0 ≤ (huber_reweight w_base residuals k).getD i 0 ∧
      (huber_reweight w_base residuals k).getD i 0 ≤ w_base.getD i 0 := by
  obtain ⟨cutoff, hcut, hEq⟩ := huber_reweight_entry w_base residuals k i hw hr
  rw [hEq]
  constructor
  · rw [mul_comm]; exact le_max_right _ _
  · apply max_le
    · by_cases hle : |residuals.getD i 0| ≤ cutoff
      · rw [if_pos hle, mul_one]
      · rw [if_neg hle]
        have har : (0 : α) < |residuals.getD i 0| := lt_trans hcut (not_le.mp hle)
        have hfac : cutoff / |residuals.getD i 0| ≤ 1 :=
          (div_le_one har).mpr (not_le.mp hle).le
        calc w_base.getD i 0 * (cutoff / |residuals.getD i 0|)
            ≤ w_base.getD i 0 * 1 := by
              exact mul_le_mul_of_nonneg_left hfac hpos.le
          _ = w_base.getD i 0 := mul_one _
    · nlinarith
/-- C10 witness. -/
theorem huber_reweight_bounds_witness :
    (1 / 10 ^ 3 : ℚ) * ([2, 3] : List ℚ).getD 1 0 ≤
        (huber_reweight [2, 3] [5, -7] (3 / 2)).getD 1 0 ∧
      (huber_reweight ([2, 3] : List ℚ) [5, -7] (3 / 2)).getD 1 0 ≤
        ([2, 3] : List ℚ).getD 1 0 :=
  huber_reweight_bounds [2, 3] [5, -7] (3 / 2) 1 (by decide) (by decide) (by decide)

/-! ## BIC monotonicity (claim C7) -/

/-- C7 counterexample: at fixed per-observation error level `SSE/n = 1/16`
and `k = 3`, the BIC strictly decreases from `n = 1` to `n = 2`, so the
claimed strict monotonicity in `n` fails. -/
theorem bic_not_increasing_cex : bic 2 ((1 / 16) * 2) 3 < bic 1 ((1 / 16) * 1) 3 := by
  have hmax : max ((1 : ℝ) / 16) (1 / 10 ^ 12) = 1 / 16 := by
    apply max_eq_left; norm_num
  have hlog2 : (0 : ℝ) < Real.log 2 := Real.log_pos (by norm_num)
  have h16 : Real.log ((1 : ℝ) / 16) = -(4 * Real.log 2) := by
    rw [one_div, Real.log_inv]
    have : (16 : ℝ) = 2 ^ 4 := by norm_num
    rw [this, Real.log_pow]
    norm_num
  rw [bic, bic]
  have e1 : ((1 : ℝ) / 16) * 1 / (1 : ℕ) = 1 / 16 := by norm_num
  have e2 : ((1 : ℝ) / 16) * 2 / (2 : ℕ) = 1 / 16 := by norm_num
  rw [e1, e2, hmax]
  simp only [Nat.cast_one, Nat.cast_ofNat, Real.log_one]
  rw [h16]
  nlinarith [hlog2]

/-- C7 as amended: for a fixed per-observation error level `SSE/n = s ≥ 1`
and fixed `k ≥ 1`, the BIC `n ↦ n · ln(max(s, 10⁻¹²)) + k · ln(n)` is
strictly increasing in `n ≥ 1`.  (For `s < 2⁻ᵏ` it can strictly decrease, as
the counterexample shows.) -/
theorem bic_increasing_amended (s : ℝ) (k n₁ n₂ : ℕ) (hs : 1 ≤ s) (hk : 1 ≤ k)
    (hn : 1 ≤ n₁) (h : n₁ < n₂) :
    bic n₁ (s * n₁) k < bic n₂ (s * n₂) k := by
  have hn₁ : (0 : ℝ) < (n₁ : ℝ) := by exact_mod_cast Nat.lt_of_lt_of_le Nat.zero_lt_one hn
  have hn₂ : (0 : ℝ) < (n₂ : ℝ) := lt_trans hn₁ (by exact_mod_cast h)
  have e₁ : s * (n₁ : ℝ) / (n₁ : ℝ) = s := by field_simp
  have e₂ : s * (n₂ : ℝ) / (n₂ : ℝ) = s := by field_simp
  have hmax : max s ((1 : ℝ) / 10 ^ 12) = s := by
    apply max_eq_left; linarith
  rw [bic, bic, e₁, e₂, hmax]
  have hlogs : 0 ≤ Real.log s := Real.log_nonneg hs
  have hloglt : Real.log (n₁ : ℝ) < Real.log (n₂ : ℝ) :=
    Real.log_lt_log hn₁ (by exact_mod_cast h)
  have hk' : (1 : ℝ) ≤ (k : ℝ) := by exact_mod_cast hk
  have h1 : (n₁ : ℝ) * Real.log s ≤ (n₂ : ℝ) * Real.log s := by
    apply mul_le_mul_of_nonneg_right _ hlogs
    exact_mod_cast h.le
  have h2 : (k : ℝ) * Real.log (n₁ : ℝ) < (k : ℝ) * Real.log (n₂ : ℝ) := by
    apply mul_lt_mul_of_pos_left hloglt
    linarith
  linarith

/-- C7 amended witness. -/
theorem bic_increasing_amended_witness :
    bic 1 (1 * ((1 : ℕ) : ℝ)) 1 < bic 2 (1 * ((2 : ℕ) : ℝ)) 1 :=
  bic_increasing_amended 1 1 1 2 le_rfl le_rfl le_rfl (by norm_num)

/-! ## Basis function stability (claim C9) -/

/-- Bounds for the series branch of `f1`. -/
theorem f1_series_bounds (x : ℝ) (h0 : 0 < x) (h1 : x < 1 / 10 ^ 6) :
    0 ≤ 1 - x / 2 + x ^ 2 / 6 ∧ 1 - x / 2 + x ^ 2 / 6 ≤ 1 := by
  constructor <;> nlinarith

/-- Bounds for the `expm1` branch of `f1`. -/
theorem f1_exp_bounds (x : ℝ) (h0 : 0 < x) :
    0 ≤ (1 - Real.exp (-x)) / x ∧ (1 - Real.exp (-x)) / x ≤ 1 := by
  have hexp1 : Real.exp (-x) ≤ 1 := by
    have := Real.exp_le_exp.mpr (by linarith : -x ≤ 0)
    rwa [Real.exp_zero] at this
  have hnum : 1 - Real.exp (-x) ≤ x := by
    have := Real.add_one_le_exp (-x)
    linarith
  exact ⟨div_nonneg (by linarith) h0.le, (div_le_one h0).mpr hnum⟩

/-- In the `expm1` branch, `f1` dominates `exp(-x)`, which makes `f2`
non-negative there. -/
theorem exp_le_f1_exp (x : ℝ) (h0 : 0 < x) :
    Real.exp (-x) ≤ (1 - Real.exp (-x)) / x := by
  rw [le_div_iff₀ h0]
  have h1 : x + 1 ≤ Real.exp x := Real.add_one_le_exp x
  have h2 : (0 : ℝ) < Real.exp (-x) := Real.exp_pos _
  have h3 : Real.exp (-x) * Real.exp x = 1 := by
    rw [← Real.exp_add]; simp
  nlinarith

/-- C9 (stable bases): for `τ ∈ [10⁻³, 10³]` and `t ∈ [0, 100]` the two basis
loadings are well defined and bounded (the real-model rendering of "finite":
both lie in `[0, 1]`), and at the floored short-end evaluation `t = 0` they
satisfy `|f1 − 1| < 10⁻⁹` and `|f2| < 10⁻⁹`. -/
theorem basis_stable (t tau : ℝ) (ht0 : 0 ≤ t) (ht1 : t ≤ 100)
    (htau0 : 1 / 10 ^ 3 ≤ tau) (htau1 : tau ≤ 10 ^ 3) :
    (0 ≤ f1 t tau ∧ f1 t tau ≤ 1) ∧ (0 ≤ f2 t tau ∧ f2 t tau ≤ 1) ∧
      |f1 0 tau - 1| < 1 / 10 ^ 9 ∧ |f2 0 tau| < 1 / 10 ^ 9 := by
  have htaupos : (0 : ℝ) < tau := lt_of_lt_of_le (by norm_num) htau0
  have ht'pos : (0 : ℝ) < max t (1 / 10 ^ 12) :=
    lt_of_lt_of_le (by norm_num) (le_max_right _ _)
  have hxpos : (0 : ℝ) < max t (1 / 10 ^ 12) / tau := div_pos ht'pos htaupos
  have hf1 : 0 ≤ f1 t tau ∧ f1 t tau ≤ 1 := by
    rw [f1]
    by_cases hb : |max t (1 / 10 ^ 12) / tau| < 1 / 10 ^ 6
    · rw [if_pos hb]
      exact f1_series_bounds _ hxpos (by rwa [abs_of_pos hxpos] at hb)
    · rw [if_neg hb]
      exact f1_exp_bounds _ hxpos
  have hf2 : 0 ≤ f2 t tau ∧ f2 t tau ≤ 1 := by
    rw [f2]
    by_cases hb : |max t (1 / 10 ^ 12) / tau| < 1 / 10 ^ 6
    · rw [if_pos hb]
      have hx6 : max t (1 / 10 ^ 12) / tau < 1 / 10 ^ 6 := by
        rwa [abs_of_pos hxpos] at hb
      constructor <;> nlinarith
    · rw [if_neg hb]
      have hexp0 : (0 : ℝ) < Real.exp (-(max t (1 / 10 ^ 12) / tau)) := Real.exp_pos _
      have hdom := exp_le_f1_exp _ hxpos
      have hf1v : f1 t tau = (1 - Real.exp (-(max t (1 / 10 ^ 12) / tau)))
          / (max t (1 / 10 ^ 12) / tau) := by
        rw [f1, if_neg hb]
      constructor
      · rw [hf1v]; linarith
      · rcases hf1 with ⟨-, hle⟩
        linarith
  -- the short-end limit: the floor kicks in and the series branch is taken
  have hmax0 : max (0 : ℝ) (1 / 10 ^ 12) = 1 / 10 ^ 12 := by
    apply max_eq_right; norm_num
  have hx0pos : (0 : ℝ) < 1 / 10 ^ 12 / tau := div_pos (by norm_num) htaupos
  have hx0small : 1 / 10 ^ 12 / tau ≤ 1 / 10 ^ 9 := by
    rw [div_le_iff₀ htaupos]
    rw [div_le_iff₀ (by norm_num : (0:ℝ) < 10 ^ 3)] at htau0
    linarith
  have hb0 : |(1 : ℝ) / 10 ^ 12 / tau| < 1 / 10 ^ 6 := by
    rw [abs_of_pos hx0pos]
    linarith
  have hlim1 : |f1 0 tau - 1| < 1 / 10 ^ 9 := by
    rw [f1]
    simp only [hmax0]
    rw [if_pos hb0]
    set x := (1 : ℝ) / 10 ^ 12 / tau with hxdef
    have hval : 1 - x / 2 + x ^ 2 / 6 - 1 = -(x / 2 - x ^ 2 / 6) := by ring
    rw [hval, abs_neg, abs_of_nonneg (by nlinarith)]
    nlinarith
  have hlim2 : |f2 0 tau| < 1 / 10 ^ 9 := by
    rw [f2]
    simp only [hmax0]
    rw [if_pos hb0]
    set x := (1 : ℝ) / 10 ^ 12 / tau with hxdef
    rw [abs_of_nonneg (by nlinarith)]
    nlinarith
  exact ⟨hf1, hf2, hlim1, hlim2⟩

/-- C9 witness. -/
theorem basis_stable_witness :
    (0 ≤ f1 2 1 ∧ f1 2 1 ≤ 1) ∧ (0 ≤ f2 2 1 ∧ f2 2 1 ≤ 1) ∧
      |f1 0 1 - 1| < 1 / 10 ^ 9 ∧ |f2 0 1| < 1 / 10 ^ 9 :=
  basis_stable 2 1 (by norm_num) (by norm_num) (by norm_num) (by norm_num)

/-! ## Non-negativity guardrail (claim C2) -/

/-- C2 (guardrail conformance): when non-negativity enforcement is enabled,
any accepted candidate's predicted curve is non-negative at each of the 25
uniformly spaced sample points over `[0, t_max]`; equivalently, every
candidate violating the check is rejected before it can be returned. -/
theorem nonneg_guardrail (P : FitPrims α) (model : ModelKind) (taus tenors y w : List α)
    (prior : Option (BaselinePrior α)) (mono : Option MonotoneDir) (swin : α)
    (betas : List α) (sse : α)
    (h : evaluate_candidate_v2 P model taus tenors y w prior true mono swin
      = some (betas, sse)) :
    violates_non_negative P model betas taus (tenor_max tenors) = false ∧
      ∀ t ∈ nonneg_samples (tenor_max tenors), 0 ≤ predict P model t betas taus := by
  rw [evaluate_candidate_v2] at h
  split at h
  · exact absurd h (by simp)
  split at h
  · exact absurd h (by simp)
  split at h
  · exact absurd h (by simp)
  split at h
  · exact absurd h (by simp)
  split at h
  · exact absurd h (by simp)
  rename_i beta heq hnn hmr
  rw [Option.some_inj, Prod.mk.injEq] at h
  obtain ⟨hb, -⟩ := h
  subst hb
  rw [Bool.true_and] at hnn
  have hv : violates_non_negative P model beta taus (tenor_max tenors) = false :=
    Bool.not_eq_true _ ▸ hnn
  refine ⟨hv, ?_⟩
  rw [violates_non_negative, List.any_eq_false] at hv
  intro t ht
  have := hv t ht
  simpa [not_lt] using this

/-- C2 witness. -/
theorem nonneg_guardrail_witness :
    violates_non_negative
        (⟨fun _ _ => 0, fun _ _ => 0, id, id, fun _ _ => some [1], fun _ _ _ => []⟩ :
          FitPrims ℚ)
        ModelKind.Ns [1] [1] (tenor_max [(1 : ℚ)]) = false ∧
      ∀ t ∈ nonneg_samples (tenor_max [(1 : ℚ)]),
        0 ≤ predict
          (⟨fun _ _ => 0, fun _ _ => 0, id, id, fun _ _ => some [1], fun _ _ _ => []⟩ :
            FitPrims ℚ)
          ModelKind.Ns t [1] [1] :=
  nonneg_guardrail
    ⟨fun _ _ => 0, fun _ _ => 0, id, id, fun _ _ => some [1], fun _ _ _ => []⟩
    ModelKind.Ns [1] [1] [1] [1] none none 1 [1] 0 (by with_unfolding_all decide)

/-! ## Prior rows invisible to SSE and to `n` (claim C3) -/

/-- The `n` recorded by `attempt_kinds` on every fitted result is the real
observation count. -/
theorem attempt_kinds_n (P : FitPrims α)
    (fitF : ModelKind → List (BondPoint α) → List (List α) → FitOptions2 α →
      Option (BaselinePrior α) → Except AppErr (ModelFit α))
    (points : List (BondPoint α)) (config : FitConfig α)
    (prior : Option (BaselinePrior α)) :
    ∀ (kinds : List ModelKind) (res : List (FitResult α) × List (ModelKind × String)),
      attempt_kinds P fitF points config prior kinds = .ok res →
      ∀ f ∈ res.1, f.quality.n = points.length := by
  intro kinds
  induction kinds with
  | nil =>
    intro res h f hf
    simp only [attempt_kinds] at h
    cases h
    simp at hf
  | cons kind ks ih =>
    intro res h f hf
    simp only [attempt_kinds] at h
    split at h
    · cases hrec : attempt_kinds P fitF points config prior ks with
      | error e => rw [hrec] at h; exact absurd h (by simp [Except.map])
      | ok r =>
        rw [hrec] at h
        simp only [Except.map] at h
        cases h
        exact ih r hrec f hf
    · cases hgrid : (match kind with
        | ModelKind.Ns => tau_grid_ns P config.tau_min config.tau_max config.tau_steps_ns
        | ModelKind.Nss => tau_grid_nss P config.tau_min config.tau_max
            config.tau_steps_nss config.tau_min_ratio
        | ModelKind.Nssc => tau_grid_nssc P config.tau_min config.tau_max
            config.tau_steps_nssc config.tau_min_ratio) with
      | error e => rw [hgrid] at h; exact absurd h (by simp [Except.bind])
      | ok grid =>
        rw [hgrid] at h
        simp only [Except.bind] at h
        cases hfit : fitF kind points grid
            ⟨config.short_end_monotone, config.short_end_window, config.robust,
              config.robust_iters, config.robust_k, config.enforce_non_negative⟩
            prior with
        | error e => rw [hfit] at h; exact absurd h (by simp)
        | ok fit =>
          rw [hfit] at h
          cases hrec : attempt_kinds P fitF points config prior ks with
          | error e => rw [hrec] at h; exact absurd h (by simp [Except.map])
          | ok r =>
            rw [hrec] at h
            simp only [Except.map] at h
            cases h
            rcases List.mem_cons.mp hf with hf | hf
            · subst hf; rfl
            · exact ih r hrec f hf

/-- C3 (prior rows invisible): any accepted candidate's reported SSE is the
weighted sum of squared residuals over the real observations only — the
shrinkage and anchor rows never contribute, so a fit returning the same `β`
without them reports the same SSE — and the observation count `n` recorded
with every fit (and used for BIC) is the number of real observations. -/
theorem prior_rows_invisible :
    (∀ (P : FitPrims α) (model : ModelKind) (taus tenors y w : List α)
        (prior : Option (BaselinePrior α)) (enn : Bool) (mono : Option MonotoneDir)
        (swin : α) (betas : List α) (sse : α),
      evaluate_candidate_v2 P model taus tenors y w prior enn mono swin
          = some (betas, sse) →
      sse = weighted_sse P model tenors y w betas taus) ∧
    (∀ (P : FitPrims α)
        (fitF : ModelKind → List (BondPoint α) → List (List α) → FitOptions2 α →
          Option (BaselinePrior α) → Except AppErr (ModelFit α))
        (points : List (BondPoint α)) (baseline anchor_baselines : Option (List α))
        (config : FitConfig α) (sel : FitSelection α),
      fit_and_select P fitF points baseline anchor_baselines config = .ok sel →
      ∀ f ∈ sel.fits, f.quality.n = points.length) := by
  constructor
  · intro P model taus tenors y w prior enn mono swin betas sse h
    rw [evaluate_candidate_v2] at h
    split at h
    · exact absurd h (by simp)
    split at h
    · exact absurd h (by simp)
    split at h
    · exact absurd h (by simp)
    split at h
    · exact absurd h (by simp)
    split at h
    · exact absurd h (by simp)
    rw [Option.some_inj, Prod.mk.injEq] at h
    obtain ⟨hb, hs⟩ := h
    subst hb
    exact hs.symm
  · intro P fitF points baseline anchor_baselines config sel h
    rw [fit_and_select] at h
    split at h
    · exact absurd h (by simp)
    cases hprior : build_baseline_prior points baseline anchor_baselines
        config.anchor_tenors config.prior_sigma_rel config.prior_sigma_floor_bp
        config.anchor_sigma_floor_bp config.anchor_sigma_decay with
    | error e => rw [hprior] at h; exact absurd h (by simp [Except.bind])
    | ok prior =>
      rw [hprior] at h
      simp only [Except.bind] at h
      cases hatt : attempt_kinds P fitF points config prior
          (model_kinds_of config.model_spec) with
      | error e => rw [hatt] at h; exact absurd h (by simp)
      | ok r =>
        rw [hatt] at h
        have hfits := attempt_kinds_n P fitF points config prior
          (model_kinds_of config.model_spec) r hatt
        obtain ⟨fits1, skipped1⟩ := r
        cases fits1 with
        | nil => exact absurd h (by simp)
        | cons f0 rest =>
          have h2 := Except.ok.inj h
          intro f hf
          rw [← h2] at hf
          exact hfits f hf

/-- C3 witness: instantiates both parts on concrete rational inputs — a
candidate evaluated with a non-trivial shrinkage prior attached, and a
two-point pipeline run. -/
theorem prior_rows_invisible_witness :
    ((0 : ℚ) = weighted_sse
      (⟨fun _ _ => 0, fun _ _ => 0, id, id, fun _ _ => some [1], fun _ _ _ => []⟩ :
        FitPrims ℚ) ModelKind.Ns [1] [1] [1] [1] [1]) := by
  have h := (prior_rows_invisible (α := ℚ)).1
    ⟨fun _ _ => 0, fun _ _ => 0, id, id, fun _ _ => some [1], fun _ _ _ => []⟩
    ModelKind.Ns [1] [1] [1] [1] (some ⟨[2], [3], [⟨1, 2, 5⟩]⟩) true none 1 [1] 0
    (by with_unfolding_all decide)
  exact h

/-! ## Fitter failure semantics (claim C4) -/

/-- C4 (failure semantics): an empty observation list fails with the
`NO_DATA` error; and when the monotonicity guardrail empties the candidate
set (robust mode off), `fit_model` deterministically retries the same grid
exactly once without the monotonicity constraint — its result is exactly the
result of that unconstrained retry, so if the candidate set is still empty it
fails with the `FIT_FAILED` error naming the model order. -/
theorem fit_model_failure_semantics (P : FitPrims α) (model : ModelKind)
    (points : List (BondPoint α)) (tau_grid : List (List α)) (opts : FitOptions α) :
    (points = [] →
      fit_model P model points tau_grid opts = .error ⟨3, "No data points to fit."⟩) ∧
    (∀ d : MonotoneDir,
      opts.robust = RobustKind.None →
      points ≠ [] → tau_grid ≠ [] →
      resolve_monotone_dir opts.short_end_monotone (points.map BondPoint.tenor)
        (points.map BondPoint.y_obs) (points.map BondPoint.weight) opts.short_end_window
        = some d →
      fit_once P model tau_grid (points.map BondPoint.tenor) (points.map BondPoint.y_obs)
        (points.map BondPoint.weight) opts.front_end_value (some d) opts.short_end_window
        = .error (fitFailedErr model) →
      fit_model P model points tau_grid opts =
        (fit_once P model tau_grid (points.map BondPoint.tenor)
          (points.map BondPoint.y_obs) (points.map BondPoint.weight)
          opts.front_end_value none opts.short_end_window).map
          (fun c => ⟨model, c.betas, c.taus, c.sse,
            P.sqrt (c.sse / ((points.map BondPoint.tenor).length : α))⟩)) := by
  constructor
  · intro hpts
    subst hpts
    rw [fit_model]
    rfl
  · intro d hrob hpts hgrid hdir hfail
    have h1 : points.isEmpty = false := by
      cases points with
      | nil => exact absurd rfl hpts
      | cons a l => rfl
    have h2 : tau_grid.isEmpty = false := by
      cases tau_grid with
      | nil => exact absurd rfl hgrid
      | cons a l => rfl
    rw [fit_model, h1, h2]
    simp only [Bool.false_eq_true, if_false]
    rw [hrob, hdir]
    have hone : (match RobustKind.None with
        | RobustKind.None => 1
        | RobustKind.Huber => max (opts.robust_iters + 1) 1) = 0 + 1 := rfl
    rw [hone, fit_loop]
    rw [hfail]
    simp only [decide_eq_true_eq]
    cases hretry : fit_once P model tau_grid (points.map BondPoint.tenor)
        (points.map BondPoint.y_obs) (points.map BondPoint.weight)
        opts.front_end_value none opts.short_end_window with
    | ok c => rfl
    | error e2 => rfl

/-- C4 witness: a one-point data set whose decreasing predictions violate an
increasing monotonicity constraint at every grid candidate, so the fitter
falls back to the unconstrained fit, plus the `NO_DATA` case. -/
theorem fit_model_failure_semantics_witness :
    (fit_model
        (⟨fun t _ => -t, fun _ _ => 0, id, id, fun _ _ => some [0, 1, 0],
          fun _ _ _ => []⟩ : FitPrims ℚ)
        ModelKind.Ns [] [[1]]
        ⟨none, ShortEndMonotone.Increasing, 1, RobustKind.None, 0, 3 / 2⟩
      = .error ⟨3, "No data points to fit."⟩) ∧
    (fit_model
        (⟨fun t _ => -t, fun _ _ => 0, id, id, fun _ _ => some [0, 1, 0],
          fun _ _ _ => []⟩ : FitPrims ℚ)
        ModelKind.Ns [⟨1, -1, 1⟩] [[1]]
        ⟨none, ShortEndMonotone.Increasing, 1, RobustKind.None, 0, 3 / 2⟩ =
      (fit_once
        (⟨fun t _ => -t, fun _ _ => 0, id, id, fun _ _ => some [0, 1, 0],
          fun _ _ _ => []⟩ : FitPrims ℚ)
        ModelKind.Ns [[1]] [1] [-1] [1] none none 1).map
        (fun c => ⟨ModelKind.Ns, c.betas, c.taus, c.sse, id (c.sse / ((1 : ℕ) : ℚ))⟩)) :=
  ⟨(fit_model_failure_semantics _ ModelKind.Ns [] [[1]] _).1 rfl,
    (fit_model_failure_semantics _ ModelKind.Ns [⟨1, -1, 1⟩] [[1]]
        ⟨none, ShortEndMonotone.Increasing, 1, RobustKind.None, 0, 3 / 2⟩).2
      MonotoneDir.Increasing rfl (by simp) (by simp) (by with_unfolding_all rfl)
      (by with_unfolding_all rfl)⟩

/-! ## Selection membership lemmas -/

/-- The minimum-BIC fold of `select_by_bic` returns an element of the
candidate list. -/
theorem fold_pick_mem (l : List (FitResult α)) :
    ∀ b, l.foldl (fun b f => if f.quality.bic < b.quality.bic then f else b) b ∈ b :: l := by
  induction l with
  | nil => intro b; simp
  | cons x xs ih =>
    intro b
    rw [List.foldl_cons]
    rcases List.mem_cons.mp (ih (if x.quality.bic < b.quality.bic then x else b)) with h | h
    · by_cases hc : x.quality.bic < b.quality.bic
      · rw [h, if_pos hc]
        exact List.mem_cons_of_mem _ (List.mem_cons_self _ _)
      · rw [h, if_neg hc]
        exact List.mem_cons_self _ _
    · exact List.mem_cons_of_mem _ (List.mem_cons_of_mem _ h)

/-- Anything returned by the simplicity-preference loop is one of the fits. -/
theorem sel_loop_mem (fits : List (FitResult α)) (bb : α) :
    ∀ (ks : List ModelKind) (f : FitResult α),
      sel_loop fits bb ks = some f → f ∈ fits := by
  intro ks
  induction ks with
  | nil => intro f h; simp [sel_loop] at h
  | cons k ks ih =>
    intro f h
    rw [sel_loop] at h
    cases hfind : fits.find? (fun x => decide (x.model.name = k)) with
    | none => rw [hfind] at h; exact ih f h
    | some g =>
      simp only [hfind] at h
      by_cases hle : g.quality.bic ≤ bb + 2
      · rw [if_pos hle] at h
        cases h
        exact List.mem_of_find?_eq_some hfind
      · rw [if_neg hle] at h
        exact ih f h

/-- Whatever `select_by_bic` returns is one of the fits it was given. -/
theorem select_by_bic_mem (fits : List (FitResult α)) (g : FitResult α) :
    select_by_bic fits = some g → g ∈ fits := by
  cases fits with
  | nil => intro h; simp [select_by_bic] at h
  | cons f0 rest =>
    intro h
    simp only [select_by_bic] at h
    have h' := Option.some.inj h
    cases hsl : sel_loop (f0 :: rest)
        (rest.foldl (fun b f => if f.quality.bic < b.quality.bic then f else b)
          f0).quality.bic [ModelKind.Ns, ModelKind.Nss, ModelKind.Nssc] with
    | some f =>
      rw [hsl] at h'
      rw [← h']
      exact sel_loop_mem _ _ _ _ hsl
    | none =>
      rw [hsl] at h'
      rw [← h']
      exact fold_pick_mem rest f0

/-! ## Selection order properties (claim C1) -/

/-- Position of a model kind in the increasing-complexity order
`(NS, NSS, NSSC)`. -/
def kindIdx : ModelKind → ℕ
  | .Ns => 0
  | .Nss => 1
  | .Nssc => 2

/-- Modelled from the spec: the minimum BIC over the fitted orders
(`BIC(M*)` in §4.8), as a fold over the fit list. -/
def min_bic (f0 : FitResult α) (rest : List (FitResult α)) : α :=
  rest.foldl (fun m f => min m f.quality.bic) f0.quality.bic

/-- The minimum-BIC fold of `select_by_bic` computes exactly `min_bic`. -/
theorem fold_pick_bic (l : List (FitResult α)) :
    ∀ b, (l.foldl (fun b f => if f.quality.bic < b.quality.bic then f else b) b).quality.bic
      = l.foldl (fun m f => min m f.quality.bic) b.quality.bic := by
  induction l with
  | nil => intro b; rfl
  | cons x xs ih =>
    intro b
    rw [List.foldl_cons, List.foldl_cons, ih]
    congr 1
    by_cases hc : x.quality.bic < b.quality.bic
    · rw [if_pos hc]; exact (min_eq_right hc.le).symm
    · rw [if_neg hc]; exact (min_eq_left (not_lt.mp hc)).symm

/-- The `min` fold is a lower bound of its starting value and of every listed
BIC. -/
theorem fold_min_le (l : List (FitResult α)) :
    ∀ m : α, l.foldl (fun m f => min m f.quality.bic) m ≤ m ∧
      ∀ f ∈ l, l.foldl (fun m f => min m f.quality.bic) m ≤ f.quality.bic := by
  induction l with
  | nil => intro m; exact ⟨le_rfl, fun f hf => absurd hf (by simp)⟩
  | cons x xs ih =>
    intro m
    rw [List.foldl_cons]
    obtain ⟨h1, h2⟩ := ih (min m x.quality.bic)
    refine ⟨le_trans h1 (min_le_left _ _), ?_⟩
    intro f hf
    rcases List.mem_cons.mp hf with hf | hf
    · subst hf; exact le_trans h1 (min_le_right _ _)
    · exact h2 f hf

/-- When the model kinds are distinct, `find?` on a fit's kind returns that
fit. -/
theorem find_kind_unique (fits : List (FitResult α))
    (hnodup : (fits.map (fun f => f.model.name)).Nodup) (f : FitResult α)
    (hf : f ∈ fits) :
    fits.find? (fun x => decide (x.model.name = f.model.name)) = some f := by
  induction fits with
  | nil => simp at hf
  | cons g l ih =>
    rw [List.map_cons, List.nodup_cons] at hnodup
    rcases List.mem_cons.mp hf with hf | hf
    · subst hf
      rw [List.find?_cons_of_pos]
      simp
    · have hne : ¬ ((fun x => decide (x.model.name = f.model.name)) g = true) := by
        simp only [decide_eq_true_eq]
        intro hEq
        exact hnodup.1 (hEq ▸ List.mem_map_of_mem _ hf)
      rw [@List.find?_cons_of_neg _ (fun x => decide (x.model.name = f.model.name)) g l hne]
      exact ih hnodup.2 hf

/-- Unfolding of the simplicity-preference loop when the head kind is
found. -/
theorem sel_loop_cons_some (fits : List (FitResult α)) (bb : α) (k : ModelKind)
    (ks : List ModelKind) (f : FitResult α)
    (hfind : fits.find? (fun x => decide (x.model.name = k)) = some f) :
    sel_loop fits bb (k :: ks) =
      if f.quality.bic ≤ bb + 2 then some f else sel_loop fits bb ks := by
  simp only [sel_loop]
  rw [hfind]

/-- Unfolding of the simplicity-preference loop when the head kind is not
among the fits. -/
theorem sel_loop_cons_none (fits : List (FitResult α)) (bb : α) (k : ModelKind)
    (ks : List ModelKind)
    (hfind : fits.find? (fun x => decide (x.model.name = k)) = none) :
    sel_loop fits bb (k :: ks) = sel_loop fits bb ks := by
  simp only [sel_loop]
  rw [hfind]

/-- The last stage of the simplicity-preference loop: NS and NSS have been
passed over, only NSSC remains. -/
theorem sel_loop_result_tail2 (fits : List (FitResult α))
    (hnodup : (fits.map (fun f => f.model.name)).Nodup) (B : FitResult α)
    (hBmem : B ∈ fits)
    (hfailNs : ∀ f ∈ fits, f.model.name = ModelKind.Ns →
      B.quality.bic + 2 < f.quality.bic)
    (hfailNss : ∀ f ∈ fits, f.model.name = ModelKind.Nss →
      B.quality.bic + 2 < f.quality.bic)
    (hloop : sel_loop fits B.quality.bic [ModelKind.Ns, ModelKind.Nss, ModelKind.Nssc]
      = sel_loop fits B.quality.bic [ModelKind.Nssc]) :
    ∃ g, (sel_loop fits B.quality.bic
        [ModelKind.Ns, ModelKind.Nss, ModelKind.Nssc]).getD B = g ∧ g ∈ fits ∧
      g.quality.bic ≤ B.quality.bic + 2 ∧
      (∀ f ∈ fits, kindIdx f.model.name < kindIdx g.model.name →
        B.quality.bic + 2 < f.quality.bic) ∧
      (∀ f ∈ fits, f.model.name = ModelKind.Ns →
        f.quality.bic ≤ B.quality.bic + 2 → g = f) := by
  cases hNssc : fits.find? (fun x => decide (x.model.name = ModelKind.Nssc)) with
  | some fC =>
    have hCname : fC.model.name = ModelKind.Nssc := by simpa using List.find?_some hNssc
    have hCmem := List.mem_of_find?_eq_some hNssc
    by_cases hCle : fC.quality.bic ≤ B.quality.bic + 2
    · refine ⟨fC, ?_, hCmem, hCle, ?_, ?_⟩
      · rw [hloop, sel_loop_cons_some _ _ _ _ _ hNssc, if_pos hCle, Option.getD_some]
      · intro f hf hidx
        rw [hCname] at hidx
        cases hk : f.model.name with
        | Ns => exact hfailNs f hf hk
        | Nss => exact hfailNss f hf hk
        | Nssc => rw [hk] at hidx; simp [kindIdx] at hidx
      · intro f hf hfname hfle
        exact absurd hfle (not_le.mpr (hfailNs f hf hfname))
    · exfalso
      have hfailNssc : ∀ f ∈ fits, f.model.name = ModelKind.Nssc →
          B.quality.bic + 2 < f.quality.bic := by
        intro f hf hk
        have h2 := find_kind_unique fits hnodup f hf
        rw [hk, hNssc] at h2
        rw [← Option.some.inj h2]
        exact not_le.mp hCle
      have hlt : B.quality.bic + 2 < B.quality.bic := by
        cases hkB : B.model.name with
        | Ns => exact hfailNs B hBmem hkB
        | Nss => exact hfailNss B hBmem hkB
        | Nssc => exact hfailNssc B hBmem hkB
      linarith
  | none =>
    exfalso
    have hfailNssc : ∀ f ∈ fits, f.model.name = ModelKind.Nssc →
        B.quality.bic + 2 < f.quality.bic := by
      intro f hf hk
      have h2 := List.find?_eq_none.mp hNssc f hf
      simp [hk] at h2
    have hlt : B.quality.bic + 2 < B.quality.bic := by
      cases hkB : B.model.name with
      | Ns => exact hfailNs B hBmem hkB
      | Nss => exact hfailNss B hBmem hkB
      | Nssc => exact hfailNssc B hBmem hkB
    linarith

/-- The middle stage of the simplicity-preference loop: NS has been passed
over, NSS and NSSC remain. -/
theorem sel_loop_result_tail (fits : List (FitResult α))
    (hnodup : (fits.map (fun f => f.model.name)).Nodup) (B : FitResult α)
    (hBmem : B ∈ fits)
    (hfailNs : ∀ f ∈ fits, f.model.name = ModelKind.Ns →
      B.quality.bic + 2 < f.quality.bic)
    (hloop : sel_loop fits B.quality.bic [ModelKind.Ns, ModelKind.Nss, ModelKind.Nssc]
      = sel_loop fits B.quality.bic [ModelKind.Nss, ModelKind.Nssc]) :
    ∃ g, (sel_loop fits B.quality.bic
        [ModelKind.Ns, ModelKind.Nss, ModelKind.Nssc]).getD B = g ∧ g ∈ fits ∧
      g.quality.bic ≤ B.quality.bic + 2 ∧
      (∀ f ∈ fits, kindIdx f.model.name < kindIdx g.model.name →
        B.quality.bic + 2 < f.quality.bic) ∧
      (∀ f ∈ fits, f.model.name = ModelKind.Ns →
        f.quality.bic ≤ B.quality.bic + 2 → g = f) := by
  cases hNss : fits.find? (fun x => decide (x.model.name = ModelKind.Nss)) with
  | some fS =>
    have hSname : fS.model.name = ModelKind.Nss := by simpa using List.find?_some hNss
    have hSmem := List.mem_of_find?_eq_some hNss
    by_cases hSle : fS.quality.bic ≤ B.quality.bic + 2
    · refine ⟨fS, ?_, hSmem, hSle, ?_, ?_⟩
      · rw [hloop, sel_loop_cons_some _ _ _ _ _ hNss, if_pos hSle, Option.getD_some]
      · intro f hf hidx
        rw [hSname] at hidx
        cases hk : f.model.name with
        | Ns => exact hfailNs f hf hk
        | Nss => rw [hk] at hidx; simp [kindIdx] at hidx
        | Nssc => rw [hk] at hidx; simp [kindIdx] at hidx
      · intro f hf hfname hfle
        exact absurd hfle (not_le.mpr (hfailNs f hf hfname))
    · have hfailNss : ∀ f ∈ fits, f.model.name = ModelKind.Nss →
          B.quality.bic + 2 < f.quality.bic := by
        intro f hf hk
        have h2 := find_kind_unique fits hnodup f hf
        rw [hk, hNss] at h2
        rw [← Option.some.inj h2]
        exact not_le.mp hSle
      exact sel_loop_result_tail2 fits hnodup B hBmem hfailNs hfailNss
        (by rw [hloop, sel_loop_cons_some _ _ _ _ _ hNss, if_neg hSle])
  | none =>
    have hfailNss : ∀ f ∈ fits, f.model.name = ModelKind.Nss →
        B.quality.bic + 2 < f.quality.bic := by
      intro f hf hk
      have h2 := List.find?_eq_none.mp hNss f hf
      simp [hk] at h2
    exact sel_loop_result_tail2 fits hnodup B hBmem hfailNs hfailNss
      (by rw [hloop, sel_loop_cons_none _ _ _ _ hNss])

/-- The simplicity-preference loop over `(NS, NSS, NSSC)`, started at the BIC
of a minimum-BIC fit `B`, returns the first fit in complexity order within
`2` of the minimum. -/
theorem sel_loop_result (fits : List (FitResult α))
    (hnodup : (fits.map (fun f => f.model.name)).Nodup) (B : FitResult α)
    (hBmem : B ∈ fits) :
    ∃ g, (sel_loop fits B.quality.bic
        [ModelKind.Ns, ModelKind.Nss, ModelKind.Nssc]).getD B = g ∧ g ∈ fits ∧
      g.quality.bic ≤ B.quality.bic + 2 ∧
      (∀ f ∈ fits, kindIdx f.model.name < kindIdx g.model.name →
        B.quality.bic + 2 < f.quality.bic) ∧
      (∀ f ∈ fits, f.model.name = ModelKind.Ns →
        f.quality.bic ≤ B.quality.bic + 2 → g = f) := by
  cases hNs : fits.find? (fun x => decide (x.model.name = ModelKind.Ns)) with
  | some fN =>
    have hNname : fN.model.name = ModelKind.Ns := by simpa using List.find?_some hNs
    have hNmem := List.mem_of_find?_eq_some hNs
    by_cases hNle : fN.quality.bic ≤ B.quality.bic + 2
    · refine ⟨fN, ?_, hNmem, hNle, ?_, ?_⟩
      · rw [sel_loop_cons_some _ _ _ _ _ hNs, if_pos hNle, Option.getD_some]
      · intro f hf hidx
        rw [hNname] at hidx
        simp [kindIdx] at hidx
      · intro f hf hfname hfle
        have h2 := find_kind_unique fits hnodup f hf
        rw [hfname, hNs] at h2
        exact Option.some.inj h2
    · have hfailNs : ∀ f ∈ fits, f.model.name = ModelKind.Ns →
          B.quality.bic + 2 < f.quality.bic := by
        intro f hf hk
        have h2 := find_kind_unique fits hnodup f hf
        rw [hk, hNs] at h2
        rw [← Option.some.inj h2]
        exact not_le.mp hNle
      exact sel_loop_result_tail fits hnodup B hBmem hfailNs
        (by rw [sel_loop_cons_some _ _ _ _ _ hNs, if_neg hNle])
  | none =>
    have hfailNs : ∀ f ∈ fits, f.model.name = ModelKind.Ns →
        B.quality.bic + 2 < f.quality.bic := by
      intro f hf hk
      have h2 := List.find?_eq_none.mp hNs f hf
      simp [hk] at h2
    exact sel_loop_result_tail fits hnodup B hBmem hfailNs
      (sel_loop_cons_none _ _ _ _ hNs)

/-- C1 as amended: with automatic selection over distinctly-kinded fits,
`select_by_bic` returns the first order in increasing-complexity sequence
`(NS, NSS, NSSC)` whose BIC is at most the minimum BIC plus 2 — every
strictly simpler fitted order exceeds that bound; in particular NS is
selected whenever its BIC is within 2 of the BIC of every fitted order
(for the original claim's NS/NSS comparison alone this can fail when a
fitted NSSC undercuts both, as the counterexample shows). -/
theorem select_by_bic_amended (f0 : FitResult α) (rest : List (FitResult α))
    (hnodup : ((f0 :: rest).map (fun f => f.model.name)).Nodup) :
    ∃ g, select_by_bic (f0 :: rest) = some g ∧ g ∈ f0 :: rest ∧
      g.quality.bic ≤ min_bic f0 rest + 2 ∧
      (∀ f ∈ f0 :: rest, kindIdx f.model.name < kindIdx g.model.name →
        min_bic f0 rest + 2 < f.quality.bic) ∧
      (∀ f ∈ f0 :: rest, f.model.name = ModelKind.Ns →
        (∀ f2 ∈ f0 :: rest, f.quality.bic ≤ f2.quality.bic + 2) → g = f) := by
  have hBmem := fold_pick_mem rest f0
  have hminbic : (rest.foldl (fun b f => if f.quality.bic < b.quality.bic then f else b)
      f0).quality.bic = min_bic f0 rest := by
    rw [min_bic]; exact fold_pick_bic rest f0
  have hres := sel_loop_result (f0 :: rest) hnodup _ hBmem
  obtain ⟨g, hgeq, hgmem, hgle, hearlier, hNspref⟩ := hres
  refine ⟨g, ?_, hgmem, ?_, ?_, ?_⟩
  · show select_by_bic (f0 :: rest) = some g
    have hunfold : select_by_bic (f0 :: rest) =
        some ((sel_loop (f0 :: rest)
          (rest.foldl (fun b f => if f.quality.bic < b.quality.bic then f else b)
            f0).quality.bic
          [ModelKind.Ns, ModelKind.Nss, ModelKind.Nssc]).getD
          (rest.foldl (fun b f => if f.quality.bic < b.quality.bic then f else b) f0)) :=
      rfl
    rw [hunfold, hgeq]
  · rw [← hminbic]; exact hgle
  · intro f hf hidx
    rw [← hminbic]
    exact hearlier f hf hidx
  · intro f hf hk hall
    exact hNspref f hf hk (hall _ hBmem)

/-- C1 counterexample: with fitted BICs `NS = 10`, `NSS = 9`, `NSSC = 0`, we
have `BIC(NS) ≤ BIC(NSS) + 2`, yet the selector returns the NSSC fit, not
NS — refuting the claim's "whenever `BIC(NS) ≤ BIC(NSS) + 2`, NS is
selected". -/
theorem select_by_bic_simplicity_cex :
    ((10 : ℚ) ≤ 9 + 2) ∧
      select_by_bic [(⟨⟨ModelKind.Ns, "NS", [], []⟩, ⟨0, 0, 10, 1⟩⟩ : FitResult ℚ),
          ⟨⟨ModelKind.Nss, "NSS", [], []⟩, ⟨0, 0, 9, 1⟩⟩,
          ⟨⟨ModelKind.Nssc, "NSS+ (3-hump)", [], []⟩, ⟨0, 0, 0, 1⟩⟩] =
        some ⟨⟨ModelKind.Nssc, "NSS+ (3-hump)", [], []⟩, ⟨0, 0, 0, 1⟩⟩ :=
  ⟨by norm_num, by with_unfolding_all rfl⟩

/-- C1 amended witness: two fits `NS = 10`, `NSS = 9` with distinct kinds;
the theorem yields the selected fit and its properties. -/
theorem select_by_bic_amended_witness :
    ∃ g, select_by_bic [⟨⟨ModelKind.Ns, "NS", [], []⟩, ⟨0, 0, 10, 7⟩⟩,
        ⟨⟨ModelKind.Nss, "NSS", [], []⟩, ⟨0, 0, 9, 7⟩⟩] = some g ∧
      g ∈ [(⟨⟨ModelKind.Ns, "NS", [], []⟩, ⟨0, 0, 10, 7⟩⟩ : FitResult ℚ),
        ⟨⟨ModelKind.Nss, "NSS", [], []⟩, ⟨0, 0, 9, 7⟩⟩] ∧
      g.quality.bic ≤ min_bic ⟨⟨ModelKind.Ns, "NS", [], []⟩, ⟨0, 0, 10, 7⟩⟩
        [⟨⟨ModelKind.Nss, "NSS", [], []⟩, ⟨0, 0, 9, 7⟩⟩] + 2 ∧
      (∀ f ∈ [(⟨⟨ModelKind.Ns, "NS", [], []⟩, ⟨0, 0, 10, 7⟩⟩ : FitResult ℚ),
          ⟨⟨ModelKind.Nss, "NSS", [], []⟩, ⟨0, 0, 9, 7⟩⟩],
        kindIdx f.model.name < kindIdx g.model.name →
        min_bic ⟨⟨ModelKind.Ns, "NS", [], []⟩, ⟨0, 0, 10, 7⟩⟩
          [⟨⟨ModelKind.Nss, "NSS", [], []⟩, ⟨0, 0, 9, 7⟩⟩] + 2 < f.quality.bic) ∧
      (∀ f ∈ [(⟨⟨ModelKind.Ns, "NS", [], []⟩, ⟨0, 0, 10, 7⟩⟩ : FitResult ℚ),
          ⟨⟨ModelKind.Nss, "NSS", [], []⟩, ⟨0, 0, 9, 7⟩⟩],
        f.model.name = ModelKind.Ns →
        (∀ f2 ∈ [(⟨⟨ModelKind.Ns, "NS", [], []⟩, ⟨0, 0, 10, 7⟩⟩ : FitResult ℚ),
          ⟨⟨ModelKind.Nss, "NSS", [], []⟩, ⟨0, 0, 9, 7⟩⟩],
          f.quality.bic ≤ f2.quality.bic + 2) → g = f) :=
  select_by_bic_amended ⟨⟨ModelKind.Ns, "NS", [], []⟩, ⟨0, 0, 10, 7⟩⟩
    [⟨⟨ModelKind.Nss, "NSS", [], []⟩, ⟨0, 0, 9, 7⟩⟩] (by simp)

/-! ## Underdetermination guard (claim C5) -/

/-- In the per-kind loop, an underdetermined order is recorded in the skip
list and never fitted. -/
theorem attempt_kinds_skip (P : FitPrims α)
    (fitF : ModelKind → List (BondPoint α) → List (List α) → FitOptions2 α →
      Option (BaselinePrior α) → Except AppErr (ModelFit α))
    (points : List (BondPoint α)) (config : FitConfig α)
    (prior : Option (BaselinePrior α))
    (hF : ∀ kind pts grid opts pr fit, fitF kind pts grid opts pr = .ok fit →
      fit.model = kind)
    (kind : ModelKind) (hn : points.length < kind.paramCount + 5) :
    ∀ (kinds : List ModelKind) (res : List (FitResult α) × List (ModelKind × String)),
      attempt_kinds P fitF points config prior kinds = .ok res →
      (kind ∈ kinds → (kind, underdetMsg points.length kind.paramCount) ∈ res.2) ∧
      (∀ f ∈ res.1, f.model.name ≠ kind) := by
  intro kinds
  induction kinds with
  | nil =>
    intro res h
    simp only [attempt_kinds] at h
    cases h
    exact ⟨fun hk => absurd hk (by simp), fun f hf => absurd hf (by simp)⟩
  | cons k ks ih =>
    intro res h
    simp only [attempt_kinds] at h
    split at h
    · rename_i hlt
      cases hrec : attempt_kinds P fitF points config prior ks with
      | error e => rw [hrec] at h; exact absurd h (by simp [Except.map])
      | ok r =>
        rw [hrec] at h
        simp only [Except.map] at h
        cases h
        obtain ⟨ih1, ih2⟩ := ih r hrec
        constructor
        · intro hk
          rcases List.mem_cons.mp hk with hk | hk
          · subst hk
            exact List.mem_cons_self _ _
          · exact List.mem_cons_of_mem _ (ih1 hk)
        · intro f hf
          exact ih2 f hf
    · rename_i hge
      cases hgrid : (match k with
        | ModelKind.Ns => tau_grid_ns P config.tau_min config.tau_max config.tau_steps_ns
        | ModelKind.Nss => tau_grid_nss P config.tau_min config.tau_max
            config.tau_steps_nss config.tau_min_ratio
        | ModelKind.Nssc => tau_grid_nssc P config.tau_min config.tau_max
            config.tau_steps_nssc config.tau_min_ratio) with
      | error e => rw [hgrid] at h; exact absurd h (by simp [Except.bind])
      | ok grid =>
        rw [hgrid] at h
        simp only [Except.bind] at h
        cases hfit : fitF k points grid
            ⟨config.short_end_monotone, config.short_end_window, config.robust,
              config.robust_iters, config.robust_k, config.enforce_non_negative⟩
            prior with
        | error e => rw [hfit] at h; exact absurd h (by simp)
        | ok fit =>
          rw [hfit] at h
          cases hrec : attempt_kinds P fitF points config prior ks with
          | error e => rw [hrec] at h; exact absurd h (by simp [Except.map])
          | ok r =>
            rw [hrec] at h
            simp only [Except.map] at h
            cases h
            obtain ⟨ih1, ih2⟩ := ih r hrec
            have hkne : k ≠ kind := by
              intro hEq
              subst hEq
              exact hge hn
            constructor
            · intro hk
              rcases List.mem_cons.mp hk with hk | hk
              · exact absurd hk.symm hkne
              · exact ih1 hk
            · intro f hf
              rcases List.mem_cons.mp hf with hf | hf
              · subst hf
                intro hname
                have hm := hF k points grid _ prior fit hfit
                have hk2 : k = kind := by rw [← hm]; exact hname
                exact hkne hk2
              · exact ih2 f hf

/-- C5 (underdetermination guard): a model order with `n < k + 5` is recorded
in the skip list with the underdetermination reason, never appears among the
fitted results, and is never selected. -/
theorem underdetermination_guard (P : FitPrims α)
    (fitF : ModelKind → List (BondPoint α) → List (List α) → FitOptions2 α →
      Option (BaselinePrior α) → Except AppErr (ModelFit α))
    (points : List (BondPoint α)) (baseline anchor_baselines : Option (List α))
    (config : FitConfig α) (kind : ModelKind) (sel : FitSelection α)
    (hF : ∀ kind pts grid opts pr fit, fitF kind pts grid opts pr = .ok fit →
      fit.model = kind)
    (hkind : kind ∈ model_kinds_of config.model_spec)
    (hn : points.length < kind.paramCount + 5)
    (hsel : fit_and_select P fitF points baseline anchor_baselines config = .ok sel) :
    (kind, underdetMsg points.length kind.paramCount) ∈ sel.skipped ∧
      (∀ f ∈ sel.fits, f.model.name ≠ kind) ∧
      sel.best.model.name ≠ kind := by
  rw [fit_and_select] at hsel
  split at hsel
  · exact absurd hsel (by simp)
  cases hprior : build_baseline_prior points baseline anchor_baselines
      config.anchor_tenors config.prior_sigma_rel config.prior_sigma_floor_bp
      config.anchor_sigma_floor_bp config.anchor_sigma_decay with
  | error e => rw [hprior] at hsel; exact absurd hsel (by simp [Except.bind])
  | ok prior =>
    rw [hprior] at hsel
    simp only [Except.bind] at hsel
    cases hatt : attempt_kinds P fitF points config prior
        (model_kinds_of config.model_spec) with
    | error e => rw [hatt] at hsel; exact absurd hsel (by simp)
    | ok r =>
      rw [hatt] at hsel
      have hskip := attempt_kinds_skip P fitF points config prior hF kind hn
        (model_kinds_of config.model_spec) r hatt
      obtain ⟨fits1, skipped1⟩ := r
      cases fits1 with
      | nil => exact absurd hsel (by simp)
      | cons f0 rest =>
        have h2 := Except.ok.inj hsel
        subst h2
        refine ⟨hskip.1 hkind, fun f hf => hskip.2 f hf, ?_⟩
        show (if single_model_spec config.model_spec = true then f0
          else (select_by_bic (f0 :: rest)).getD f0).model.name ≠ kind
        cases hss : single_model_spec config.model_spec with
        | true =>
          rw [if_pos rfl]
          exact hskip.2 f0 (List.mem_cons_self _ _)
        | false =>
          rw [if_neg (by simp)]
          cases hsb : select_by_bic (f0 :: rest) with
          | none =>
            rw [Option.getD_none]
            exact hskip.2 f0 (List.mem_cons_self _ _)
          | some g =>
            rw [Option.getD_some]
            exact hskip.2 g (select_by_bic_mem _ _ hsb)

/-- C5 witness: eleven observations make NSSC underdetermined
(`11 < 8 + 5`) while NS and NSS are attempted; the skip entry, the fitted
list and the selection all exclude NSSC. -/
theorem underdetermination_guard_witness :
    (ModelKind.Nssc, underdetMsg 11 ModelKind.Nssc.paramCount) ∈
      (⟨to_fit_result (⟨fun _ _ => 0, fun _ _ => 0, id, id, fun _ _ => some [1],
          fun _ _ _ => [1]⟩ : FitPrims ℚ) ⟨ModelKind.Ns, [], [], 0, 0⟩ 11 4,
        [to_fit_result ⟨fun _ _ => 0, fun _ _ => 0, id, id, fun _ _ => some [1],
            fun _ _ _ => [1]⟩ ⟨ModelKind.Ns, [], [], 0, 0⟩ 11 4,
          to_fit_result ⟨fun _ _ => 0, fun _ _ => 0, id, id, fun _ _ => some [1],
            fun _ _ _ => [1]⟩ ⟨ModelKind.Nss, [], [], 0, 0⟩ 11 6],
        [(ModelKind.Nssc, underdetMsg 11 8)]⟩ : FitSelection ℚ).skipped ∧
      (∀ f ∈ (⟨to_fit_result (⟨fun _ _ => 0, fun _ _ => 0, id, id, fun _ _ => some [1],
          fun _ _ _ => [1]⟩ : FitPrims ℚ) ⟨ModelKind.Ns, [], [], 0, 0⟩ 11 4,
        [to_fit_result ⟨fun _ _ => 0, fun _ _ => 0, id, id, fun _ _ => some [1],
            fun _ _ _ => [1]⟩ ⟨ModelKind.Ns, [], [], 0, 0⟩ 11 4,
          to_fit_result ⟨fun _ _ => 0, fun _ _ => 0, id, id, fun _ _ => some [1],
            fun _ _ _ => [1]⟩ ⟨ModelKind.Nss, [], [], 0, 0⟩ 11 6],
        [(ModelKind.Nssc, underdetMsg 11 8)]⟩ : FitSelection ℚ).fits,
        f.model.name ≠ ModelKind.Nssc) ∧
      (⟨to_fit_result (⟨fun _ _ => 0, fun _ _ => 0, id, id, fun _ _ => some [1],
          fun _ _ _ => [1]⟩ : FitPrims ℚ) ⟨ModelKind.Ns, [], [], 0, 0⟩ 11 4,
        [to_fit_result ⟨fun _ _ => 0, fun _ _ => 0, id, id, fun _ _ => some [1],
            fun _ _ _ => [1]⟩ ⟨ModelKind.Ns, [], [], 0, 0⟩ 11 4,
          to_fit_result ⟨fun _ _ => 0, fun _ _ => 0, id, id, fun _ _ => some [1],
            fun _ _ _ => [1]⟩ ⟨ModelKind.Nss, [], [], 0, 0⟩ 11 6],
        [(ModelKind.Nssc, underdetMsg 11 8)]⟩ : FitSelection ℚ).best.model.name ≠
        ModelKind.Nssc :=
  underdetermination_guard
    ⟨fun _ _ => 0, fun _ _ => 0, id, id, fun _ _ => some [1], fun _ _ _ => [1]⟩
    (fun kind _ _ _ _ => .ok ⟨kind, [], [], 0, 0⟩)
    (List.replicate 11 ⟨1, 1, 1⟩) none none
    ⟨ModelSpec.Auto, 1, 2, 2, 2, 2, 1, 1, 1, [], 1, 0, false, ShortEndMonotone.None, 1,
      RobustKind.None, 0, 3 / 2⟩
    ModelKind.Nssc _
    (fun _ _ _ _ _ _ h => by cases h; rfl)
    (by decide) (by decide) (by with_unfolding_all rfl)

/-! ## Residual ranking (claim C8)

The ranking of `report/mod.rs` sorts the residual list with a stable sort.
To state the tie-breaking rule we compare against a sort of the
index-annotated list under the lexicographic order (residual first,
observation index second): stability of the sort makes the two agree. -/

/-- Anything in an insertion is the inserted element or was already there. -/
theorem mem_insert_by {β : Type} (le : β → β → Bool) (x : β) :
    ∀ (l : List β) (p : β), p ∈ insert_by le x l → p = x ∨ p ∈ l := by
  intro l
  induction l with
  | nil =>
    intro p hp
    rw [insert_by] at hp
    exact Or.inl (List.mem_singleton.mp hp)
  | cons b l ih =>
    intro p hp
    rw [insert_by] at hp
    by_cases hc : le x b
    · rw [if_pos hc] at hp
      rcases List.mem_cons.mp hp with hp | hp
      · exact Or.inl hp
      · exact Or.inr hp
    · rw [if_neg hc] at hp
      rcases List.mem_cons.mp hp with hp | hp
      · exact Or.inr (hp ▸ List.mem_cons_self _ _)
      · rcases ih p hp with hp | hp
        · exact Or.inl hp
        · exact Or.inr (List.mem_cons_of_mem _ hp)

/-- Anything in the sorted list was in the input list. -/
theorem mem_sort_by {β : Type} (le : β → β → Bool) :
    ∀ (l : List β) (p : β), p ∈ sort_by le l → p ∈ l := by
  intro l
  induction l with
  | nil => intro p hp; rw [sort_by] at hp; simp at hp
  | cons a l ih =>
    intro p hp
    rw [sort_by] at hp
    rcases mem_insert_by _ _ _ _ hp with hp | hp
    · exact hp ▸ List.mem_cons_self _ _
    · exact List.mem_cons_of_mem _ (ih p hp)

/-- Indices produced by `enumFrom` are at least the starting index. -/
theorem enumFrom_fst_le {β : Type} :
    ∀ (l : List β) (k : ℕ) (p : ℕ × β), p ∈ l.enumFrom k → k ≤ p.1 := by
  intro l
  induction l with
  | nil => intro k p hp; simp [List.enumFrom] at hp
  | cons a l ih =>
    intro k p hp
    rw [List.enumFrom] at hp
    rcases List.mem_cons.mp hp with hp | hp
    · rw [hp]
    · exact Nat.le_of_succ_le (ih (k + 1) p hp)

/-- When the comparator on index-annotated elements agrees with the plain
comparator whenever the left index is smaller, inserting an element with a
smaller index than everything present commutes with dropping the indices. -/
theorem map_snd_insert_by {β : Type} (le : β → β → Bool)
    (le' : ℕ × β → ℕ × β → Bool)
    (hagree : ∀ (i j : ℕ) (a b : β), i < j → le' (i, a) (j, b) = le a b)
    (x : ℕ × β) :
    ∀ (l : List (ℕ × β)), (∀ q ∈ l, x.1 < q.1) →
      (insert_by le' x l).map Prod.snd = insert_by le x.2 (l.map Prod.snd) := by
  intro l
  induction l with
  | nil => intro _; rfl
  | cons q l ih =>
    intro hidx
    rw [insert_by, List.map_cons, insert_by]
    have hxq : le' x q = le x.2 q.2 := by
      have := hagree x.1 q.1 x.2 q.2 (hidx q (List.mem_cons_self _ _))
      simpa using this
    by_cases hc : le x.2 q.2
    · rw [if_pos (by rw [hxq]; exact hc), if_pos hc]
      rfl
    · rw [if_neg (by rw [hxq]; exact hc), if_neg hc, List.map_cons,
        ih (fun r hr => hidx r (List.mem_cons_of_mem _ hr))]

/-- Stability: sorting the index-annotated list under the agreeing comparator
and dropping indices is the same as sorting the plain list. -/
theorem map_snd_sort_by_enumFrom {β : Type} (le : β → β → Bool)
    (le' : ℕ × β → ℕ × β → Bool)
    (hagree : ∀ (i j : ℕ) (a b : β), i < j → le' (i, a) (j, b) = le a b) :
    ∀ (l : List β) (k : ℕ),
      (sort_by le' (l.enumFrom k)).map Prod.snd = sort_by le l := by
  intro l
  induction l with
  | nil => intro k; rfl
  | cons a l ih =>
    intro k
    rw [List.enumFrom, sort_by, sort_by]
    rw [map_snd_insert_by le le' hagree (k, a) _ ?hidx, ih (k + 1)]
    case hidx =>
      intro q hq
      exact Nat.lt_of_succ_le (enumFrom_fst_le l (k + 1) q (mem_sort_by _ _ q hq))

/-- The lexicographic comparator behind the "cheap" ranking: residual
descending, ties by ascending observation index. -/
def cheap_lex (p q : ℕ × BondResidual α) : Bool :=
  decide (q.2.residual < p.2.residual ∨ (q.2.residual = p.2.residual ∧ p.1 ≤ q.1))

/-- The lexicographic comparator behind the "rich" ranking: residual
ascending, ties by ascending observation index. -/
def rich_lex (p q : ℕ × BondResidual α) : Bool :=
  decide (p.2.residual < q.2.residual ∨ (p.2.residual = q.2.residual ∧ p.1 ≤ q.1))

/-- Modelled from the spec: the top-K cheap list — the residual records
sorted by residual descending with ties broken by observation index,
truncated to `top_n`. -/
def spec_cheap (residuals : List (BondResidual α)) (top_n : ℕ) :
    List (BondResidual α) :=
  ((sort_by cheap_lex residuals.enum).map Prod.snd).take top_n

/-- Modelled from the spec: the top-K rich list — the residual records sorted
by residual ascending with ties broken by observation index, truncated to
`top_n`. -/
def spec_rich (residuals : List (BondResidual α)) (top_n : ℕ) :
    List (BondResidual α) :=
  ((sort_by rich_lex residuals.enum).map Prod.snd).take top_n

/-- C8 as amended: `cheap` is the first `top_n` residual records in
residual-descending order and `rich` the first `top_n` in residual-ascending
order — regardless of sign — with ties broken by observation index. -/
theorem rank_cheap_rich_amended (residuals : List (BondResidual α)) (top_n : ℕ) :
    (rank_cheap_rich residuals top_n).cheap = spec_cheap residuals top_n ∧
      (rank_cheap_rich residuals top_n).rich = spec_rich residuals top_n := by
  constructor
  · show (sort_by (fun a b => decide (b.residual ≤ a.residual)) residuals).take top_n
      = spec_cheap residuals top_n
    rw [spec_cheap]
    congr 1
    rw [show residuals.enum = residuals.enumFrom 0 from rfl]
    rw [map_snd_sort_by_enumFrom (fun a b => decide (b.residual ≤ a.residual)) cheap_lex]
    intro i j a b hij
    rw [cheap_lex]
    rcases lt_trichotomy b.residual a.residual with h | h | h
    · simp [h, le_of_lt h]
    · simp [h, Nat.le_of_lt hij, le_of_eq h.symm]
    · simp [not_lt.mpr (le_of_lt h), not_le.mpr h, ne_of_gt h]
  · show (sort_by (fun a b => decide (a.residual ≤ b.residual)) residuals).take top_n
      = spec_rich residuals top_n
    rw [spec_rich]
    congr 1
    rw [show residuals.enum = residuals.enumFrom 0 from rfl]
    rw [map_snd_sort_by_enumFrom (fun a b => decide (a.residual ≤ b.residual)) rich_lex]
    intro i j a b hij
    rw [rich_lex]
    rcases lt_trichotomy a.residual b.residual with h | h | h
    · simp [h, le_of_lt h]
    · simp [h, Nat.le_of_lt hij, le_of_eq h]
    · simp [not_lt.mpr (le_of_lt h), not_le.mpr h, ne_of_gt h]

/-- C8 counterexample: with a single observation whose residual is negative,
`cheap` still contains it — the ranking takes the `top_n` largest residuals
regardless of sign, not only positive ones (which would give an empty
list). -/
theorem rank_cheap_rich_positive_cex :
    (rank_cheap_rich [(⟨⟨1, 1, 1⟩, 0, -1⟩ : BondResidual ℚ)] 1).cheap
        = [⟨⟨1, 1, 1⟩, 0, -1⟩] ∧
      (⟨⟨1, 1, 1⟩, 0, -1⟩ : BondResidual ℚ).residual < 0 :=
  ⟨by with_unfolding_all rfl, by norm_num⟩

end RvCurves
